import Mathlib

/-! # itoa-benchmark: the verification and benchmark harness of `src/itoa.cpp`

A shallow embedding of the harness (`Traits`, `test`, `verify`, `bench`,
`VERIFY`, `Verify`) and, modelled from the specification, of the conversion
algorithms the harness drives.

Conventions of the embedding:

* a value of one of the four fixed-width integer types is an `Int` inside the
  range of the type; every arithmetic result is reduced with `IntType.wrap`
  (wrap-around modulo `2 ^ width`);
* a conversion function `void f(T value, char* buffer)`, as the harness sees it, is
  a function from the value to the content of `buffer` after the call;
* `printf`/`puts` output and the calls of the two functions under test are
  recorded, in program order, in a log of events;
* `throw std::exception()` is `Except.error`, carrying the log at the throw.
-/

/-! ## Integer types -/

/-- The four integer types the harness is instantiated with. -/
inductive IntType where
  | uint32_t
  | int32_t
  | uint64_t
  | int64_t
  deriving DecidableEq, Repr

namespace IntType

/-- Width in bits. -/
def width : IntType → Nat
  | uint32_t => 32
  | int32_t => 32
  | uint64_t => 64
  | int64_t => 64

/-- Signedness. -/
def isSigned : IntType → Bool
  | uint32_t => false
  | int32_t => true
  | uint64_t => false
  | int64_t => true

/-- Reduction of a mathematical integer into the range of the type, modulo
`2 ^ width` (two's complement for the signed types). -/
def wrap (t : IntType) (x : Int) : Int :=
  if t.isSigned then (x + 2 ^ (t.width - 1)) % 2 ^ t.width - 2 ^ (t.width - 1)
  else x % 2 ^ t.width

end IntType

namespace numeric_limits

/-- The value `std::numeric_limits<T>::min()`. -/
def min (t : IntType) : Int :=
  if t.isSigned then -(2 ^ (t.width - 1)) else 0

/-- The value `std::numeric_limits<T>::max()`. -/
def max (t : IntType) : Int :=
  if t.isSigned then 2 ^ (t.width - 1) - 1 else 2 ^ t.width - 1

end numeric_limits

/-- The constant `kIterationPerDigit`. -/
def kIterationPerDigit : Nat := 1000000

namespace Traits

/-- The enumerator `Traits<T>::kBufferSize`. -/
def kBufferSize : IntType → Nat
  | .uint32_t => 11
  | .int32_t => 12
  | .uint64_t => 21
  | .int64_t => 22

/-- The enumerator `Traits<T>::kMaxDigit`. -/
def kMaxDigit : IntType → Nat
  | .uint32_t => 10
  | .int32_t => 10
  | .uint64_t => 20
  | .int64_t => 20

/-- The function `Traits<T>::Negate`: the identity for the unsigned types, `-x`
(wrapping) for the signed ones. -/
def Negate : IntType → Int → Int
  | .uint32_t, x => x
  | .int32_t, x => IntType.int32_t.wrap (-x)
  | .uint64_t, x => x
  | .int64_t, x => IntType.int64_t.wrap (-x)

end Traits

/-! ## Buffers and C strings -/

/-- A conversion function as `test` uses it: the content of the output buffer after the
call `f(value, buffer)`, from `buffer[0]` on, as a function of the value converted. -/
abbrev Conv := Int → List Nat

/-- The C string held by a buffer: the bytes before the first terminator. -/
def cstr (buffer : List Nat) : List Nat :=
  buffer.takeWhile (fun c => c != 0)

/-- The library function `strcmp`: the difference of the first pair of bytes that
differ, `0` when both strings end together. The end of the list reads as a
terminator. -/
def strcmp : List Nat → List Nat → Int
  | [], [] => 0
  | [], b :: _ => -(b : Int)
  | a :: _, [] => (a : Int)
  | a :: as, b :: bs =>
    if a ≠ b then (a : Int) - (b : Int)
    else if a = 0 then 0
    else strcmp as bs

/-! ## The verification harness -/

/-- What the harness does that is observable, in program order. -/
inductive Event where
  /-- The line `printf("Verifying %s = %s ... ", fname, gname)`. -/
  | verifying (fname gname : String)
  /-- A call `f(value, buffer)` of the function reported as `name`. -/
  | call (name : String) (value : Int)
  /-- The line `printf("\nError: %s -> %s, %s -> %s\n", ...)`. -/
  | error (fname : String) (buffer1 : List Nat) (gname : String) (buffer2 : List Nat)
  /-- The line `printf("OK\n")`. -/
  | ok
  /-- The line `puts("")`. -/
  | puts
  deriving DecidableEq, Repr

/-- The log of events. -/
abbrev Log := List Event

/-- The function `test<T>`: runs `f` and `g` on `value`, and throws when the two
strings differ. -/
def test (value : Int) (f g : Conv) (fname gname : String) (log : Log) :
    Except Log Log :=
  let buffer1 := f value
  let log := log ++ [Event.call fname value]
  let buffer2 := g value
  let log := log ++ [Event.call gname value]
  if strcmp buffer1 buffer2 ≠ 0 then
    Except.error (log ++ [Event.error fname (cstr buffer1) gname (cstr buffer2)])
  else
    Except.ok log

/-- The body of the `do { ... } while` loop of `verify`, up to `last = i`. -/
def loopBody (t : IntType) (f g : Conv) (fname gname : String) (i : Int) (log : Log) :
    Except Log Log :=
  match test (t.wrap (i - 1)) f g fname gname log with
  | Except.error e => Except.error e
  | Except.ok log =>
    match test i f g fname gname log with
    | Except.error e => Except.error e
    | Except.ok log =>
      if numeric_limits.min t < 0 then
        match test (Traits.Negate t i) f g fname gname log with
        | Except.error e => Except.error e
        | Except.ok log => test (Traits.Negate t (t.wrap (i + 1))) f g fname gname log
      else
        Except.ok log

/-- The loop `do { ...; last = i; i *= power; } while (last < i)` of `verify`,
entered with the given `i`. It terminates because `i` grows at every repetition
and stays below the maximum of the type. -/
def doWhile (t : IntType) (f g : Conv) (fname gname : String) (power : Nat) (i : Int)
    (log : Log) : Except Log Log :=
  match loopBody t f g fname gname i log with
  | Except.error e => Except.error e
  | Except.ok log =>
    let last := i
    let i := t.wrap (i * (power : Int))
    if last < i then doWhile t f g fname gname power i log else Except.ok log
termination_by (numeric_limits.max t - i).toNat
decreasing_by
  rename_i h
  have hw : ∀ x : Int, t.wrap x ≤ numeric_limits.max t := by
    intro x
    cases t <;> simp [IntType.wrap, numeric_limits.max, IntType.isSigned, IntType.width] <;> omega
  have key : ∀ a b : Int, a < b → b ≤ numeric_limits.max t →
      (numeric_limits.max t - b).toNat < (numeric_limits.max t - a).toNat := by
    intro a b hab hb
    omega
  exact key _ _ h (hw _)

/-- The loop `for (uint32_t power = 2; power <= 10; power += 8)` of `verify`,
entered with the given `power`. -/
def forPower (t : IntType) (f g : Conv) (fname gname : String) (power : Nat) (log : Log) :
    Except Log Log :=
  if power ≤ 10 then
    match doWhile t f g fname gname power 1 log with
    | Except.error e => Except.error e
    | Except.ok log => forPower t f g fname gname ((power + 8) % 2 ^ 32) log
  else
    Except.ok log
termination_by 11 - power
decreasing_by
  simp_wf
  omega

/-- The function `verify<T>`. -/
def verify (t : IntType) (f g : Conv) (fname gname : String) (log : Log) : Except Log Log :=
  let log := log ++ [Event.verifying fname gname]
  match test (t.wrap 0) f g fname gname log with
  | Except.error e => Except.error e
  | Except.ok log =>
    match test (numeric_limits.min t) f g fname gname log with
    | Except.error e => Except.error e
    | Except.ok log =>
      match test (numeric_limits.max t) f g fname gname log with
      | Except.error e => Except.error e
      | Except.ok log =>
        match forPower t f g fname gname 2 log with
        | Except.error e => Except.error e
        | Except.ok log => Except.ok (log ++ [Event.ok])

/-- The algorithm names the macros are applied to. -/
inductive Algo where
  | null
  | sprintf
  | naive
  | lut
  | count
  | countlut
  | vc
  deriving DecidableEq, Repr

/-- The spelling of an algorithm name, as `STRINFY` produces it. -/
def Algo.name : Algo → String
  | .null => "null"
  | .sprintf => "sprintf"
  | .naive => "naive"
  | .lut => "lut"
  | .count => "count"
  | .countlut => "countlut"
  | .vc => "vc"

/-- The first macro argument (`u32toa`, `i32toa`, `u64toa`, `i64toa`) that selects the
functions of a type. -/
def IntType.prefixName : IntType → String
  | .uint32_t => "u32toa"
  | .int32_t => "i32toa"
  | .uint64_t => "u64toa"
  | .int64_t => "i64toa"

/-- The macro `FUNC_NAME(type, f)`. -/
def FUNC_NAME (type : IntType) (f : Algo) : String :=
  type.prefixName ++ "_" ++ f.name

/-- The functions `type##_##f` declared by the included headers. -/
abbrev Impl := IntType → Algo → Conv

/-- The macro `VERIFY(type, f, g)`: `verify` inside `try { ... } catch (...) {}`. -/
def VERIFY (impl : Impl) (type : IntType) (f g : Algo) (log : Log) : Log :=
  match verify type (impl type f) (impl type g) (FUNC_NAME type f) (FUNC_NAME type g) log with
  | Except.ok log => log
  | Except.error log => log

/-- The function `Verify`; `msc` tells whether `_MSC_VER` is defined. -/
def Verify (impl : Impl) (msc : Bool) (log : Log) : Log :=
  let log := VERIFY impl .uint32_t .naive .sprintf log
  let log := VERIFY impl .uint32_t .naive .lut log
  let log := VERIFY impl .uint32_t .naive .count log
  let log := VERIFY impl .uint32_t .naive .countlut log
  let log := if msc then VERIFY impl .uint32_t .naive .vc log else log
  let log := VERIFY impl .int32_t .naive .sprintf log
  let log := VERIFY impl .int32_t .naive .lut log
  let log := VERIFY impl .int32_t .naive .count log
  let log := VERIFY impl .int32_t .naive .countlut log
  let log := if msc then VERIFY impl .int32_t .naive .vc log else log
  let log := VERIFY impl .uint64_t .naive .sprintf log
  let log := VERIFY impl .uint64_t .naive .lut log
  let log := VERIFY impl .uint64_t .naive .count log
  let log := VERIFY impl .uint64_t .naive .countlut log
  let log := if msc then VERIFY impl .uint64_t .naive .vc log else log
  let log := VERIFY impl .int64_t .naive .sprintf log
  let log := VERIFY impl .int64_t .naive .lut log
  let log := VERIFY impl .int64_t .naive .count log
  let log := VERIFY impl .int64_t .naive .countlut log
  let log := if msc then VERIFY impl .int64_t .naive .vc log else log
  log ++ [Event.puts]

/-! ## The benchmark harness -/

/-- The variables of `bench` that live across the buckets, and the values passed to
the function under test, one list per bucket, in iteration order. -/
structure BenchState where
  start : Int
  minDuration : ℚ
  maxDuration : ℚ
  calls : List (List Int)

/-- One pass of `f(v, buffer); if (v++ == end) v = start;`: the next `v`. -/
def benchStep (t : IntType) (start end_ v : Int) : Int :=
  let old := v
  let v := t.wrap (v + 1)
  if old = end_ then start else v

/-- The inner loop of `bench` with `n` iterations left: the values passed to `f`
are appended to `calls`. -/
def benchIter (t : IntType) (start end_ : Int) : Nat → Int → List Int → List Int
  | 0, _, calls => calls
  | n + 1, v, calls => benchIter t start end_ n (benchStep t start end_ v) (calls ++ [v])

/-- The body of the loop over `digit` in `bench`; `elapsed digit` is what
`timer.GetElapsedMilliseconds()` returns for that bucket. -/
def benchDigit (t : IntType) (elapsed : Nat → ℚ) (s : BenchState) (digit : Nat) : BenchState :=
  let end_ := if digit = Traits.kMaxDigit t then numeric_limits.max t else t.wrap (s.start * 10)
  let v := s.start
  let calls := benchIter t s.start end_ kIterationPerDigit v []
  let duration := elapsed digit
  let minDuration := if s.minDuration > duration ∨ digit = 1 then duration else s.minDuration
  let maxDuration := if s.maxDuration < duration then duration else s.maxDuration
  { start := end_, minDuration := minDuration, maxDuration := maxDuration,
    calls := s.calls ++ [calls] }

/-- The function `bench<T>`: the state after the loop
`for (int digit = 1; digit <= Traits<T>::kMaxDigit; digit++)`; its `minDuration` and
`maxDuration` are the two numbers printed. -/
def bench (t : IntType) (elapsed : Nat → ℚ) : BenchState :=
  (List.range' 1 (Traits.kMaxDigit t)).foldl (benchDigit t elapsed)
    { start := 1, minDuration := 0, maxDuration := 0, calls := [] }

/-! ## The sequence of values `verify` tests -/

/-- The arguments of the `test` calls of one pass through the loop body, in order. -/
def bodyValues (t : IntType) (i : Int) : List Int :=
  [t.wrap (i - 1), i] ++
    (if numeric_limits.min t < 0 then [Traits.Negate t i, Traits.Negate t (t.wrap (i + 1))]
     else [])

/-- The values of `i` on which the body of the `do ... while` loop of `verify` runs, when
the loop is entered with the given `i`: the loop without its `test` calls
(`doWhile_eq` relates the two). -/
def iValues (t : IntType) (power : Nat) (i : Int) : List Int :=
  if i < t.wrap (i * (power : Int)) then i :: iValues t power (t.wrap (i * (power : Int)))
  else [i]
termination_by (numeric_limits.max t - i).toNat
decreasing_by
  rename_i h
  have hw : ∀ x : Int, t.wrap x ≤ numeric_limits.max t := by
    intro x
    cases t <;> simp [IntType.wrap, numeric_limits.max, IntType.isSigned, IntType.width] <;> omega
  have key : ∀ a b : Int, a < b → b ≤ numeric_limits.max t →
      (numeric_limits.max t - b).toNat < (numeric_limits.max t - a).toNat := by
    intro a b hab hb
    omega
  exact key _ _ h (hw _)

/-- The same values computed with a bound on the number of repetitions, for evaluation:
`none` when the bound is reached before the loop ends (`iValues_of_fuel`). -/
def iValuesFuel (t : IntType) (power : Nat) : Nat → Int → Option (List Int)
  | 0, _ => none
  | fuel + 1, i =>
    if i < t.wrap (i * (power : Int)) then
      (iValuesFuel t power fuel (t.wrap (i * (power : Int)))).map (fun l => i :: l)
    else some [i]

/-- The boundary-value sequence: the arguments of all `test` calls of `verify`, in
program order (`verify_eq` shows that `verify` is the run of `test` over it). -/
def verifyValues (t : IntType) : List Int :=
  [t.wrap 0, numeric_limits.min t, numeric_limits.max t] ++
    (iValues t 2 1).flatMap (bodyValues t) ++ (iValues t 10 1).flatMap (bodyValues t)

/-- A run of `test` over a list of values, stopping at the first throw. -/
def runTests (f g : Conv) (fname gname : String) : List Int → Log → Except Log Log
  | [], log => Except.ok log
  | v :: vs, log =>
    match test v f g fname gname log with
    | Except.error e => Except.error e
    | Except.ok log => runTests f g fname gname vs log

/-- Whether the strings written by `f` and `g` for `v` differ. -/
def mismatch (f g : Conv) (v : Int) : Prop :=
  cstr (f v) ≠ cstr (g v)

instance (f g : Conv) (v : Int) : Decidable (mismatch f g v) := by
  unfold mismatch
  infer_instance

/-- The values up to and including the first one on which `f` and `g` differ (all
of them when there is none). -/
def uptoMismatch (f g : Conv) : List Int → List Int
  | [] => []
  | v :: vs => if mismatch f g v then [v] else v :: uptoMismatch f g vs

/-- The two call events of one `test`. -/
def callEvents (fname gname : String) (v : Int) : List Event :=
  [Event.call fname v, Event.call gname v]

/-- The first value of a list on which `f` and `g` differ. -/
def firstMismatch (f g : Conv) : List Int → Option Int
  | [] => none
  | v :: vs => if mismatch f g v then some v else firstMismatch f g vs

/-- The number of repetitions of the multiplier-2 loop of `verify` (`iValues_two`). -/
def twoCount : IntType → Nat
  | .uint32_t => 32
  | .int32_t => 31
  | .uint64_t => 64
  | .int64_t => 63

/-- Both functions have been invoked on `v`: the log holds the call of the function
reported as `fname` and the call of the one reported as `gname`. -/
def invoked (fname gname : String) (out : Log) (v : Int) : Prop :=
  Event.call fname v ∈ out ∧ Event.call gname v ∈ out

/-- A conversion function that stores the string `"0"` whatever the value. -/
def constZero : Conv := fun _ => [48, 0]

/-- A conversion function that stores the string `"1"` whatever the value. -/
def constOne : Conv := fun _ => [49, 0]

/-- The `(type, f, g)` arguments of the `VERIFY` lines of `Verify`, in program order
(`Verify_eq` shows that `Verify` runs them one after the other). -/
def verifyList (msc : Bool) : List (IntType × Algo × Algo) :=
  [(.uint32_t, .naive, .sprintf), (.uint32_t, .naive, .lut), (.uint32_t, .naive, .count),
    (.uint32_t, .naive, .countlut)] ++
  (if msc then [(.uint32_t, .naive, .vc)] else []) ++
  [(.int32_t, .naive, .sprintf), (.int32_t, .naive, .lut), (.int32_t, .naive, .count),
    (.int32_t, .naive, .countlut)] ++
  (if msc then [(.int32_t, .naive, .vc)] else []) ++
  [(.uint64_t, .naive, .sprintf), (.uint64_t, .naive, .lut), (.uint64_t, .naive, .count),
    (.uint64_t, .naive, .countlut)] ++
  (if msc then [(.uint64_t, .naive, .vc)] else []) ++
  [(.int64_t, .naive, .sprintf), (.int64_t, .naive, .lut), (.int64_t, .naive, .count),
    (.int64_t, .naive, .countlut)] ++
  (if msc then [(.int64_t, .naive, .vc)] else [])

/-- The pairs of function names a log reports a verification of: one pair per line
`Verifying fname = gname ...`. -/
def pairsVerified (log : Log) : List (String × String) :=
  log.filterMap (fun e =>
    match e with
    | Event.verifying fname gname => some (fname, gname)
    | _ => none)

/-- The log a verification leaves, whether it returned or threw. -/
def outcomeLog : Except Log Log → Log
  | Except.ok log => log
  | Except.error log => log

/-! ## Decimal strings -/

/-- The decimal digits of a natural number as ASCII bytes, most significant first,
without leading zeros (`"0"` for zero). -/
def decimalDigits (n : Nat) : List Nat :=
  if n < 10 then [48 + n] else decimalDigits (n / 10) ++ [48 + n % 10]
termination_by n
decreasing_by omega

/-- The minimal decimal string of an integer: a `'-'` when it is negative, then the
digits of its absolute value without leading zeros. -/
def decimalString (v : Int) : List Nat :=
  (if v < 0 then [45] else []) ++ decimalDigits v.natAbs

/-! ## The conversion algorithms

The headers `sprintf.h`, `naive.h`, `lut.h`, `count.h` and `countlut.h` that define the
functions `u32toa_naive`, ... are not among the sources. The definitions of this
section follow the specification (its sections 4.1 to 4.3). A conversion takes the
buffer it is handed, with whatever bytes it holds, and returns the buffer after the
call. -/

/-- Modelled from the spec: the magnitude of a value (section 4.3, sign handling; the
header that computes it is missing): the value converted to the unsigned type of the
same width and, when the value is negative, negated in that unsigned type. -/
def magnitude (t : IntType) (value : Int) : Nat :=
  let u := value % 2 ^ t.width
  if value < 0 then ((2 ^ t.width - u) % 2 ^ t.width).toNat else u.toNat

/-- Modelled from the spec: the stores `*buffer++ = c` of a run of bytes, the first one at
index `pos` (the header with the stores is missing). -/
def storeAt (buffer : List Nat) (pos : Nat) : List Nat → List Nat
  | [] => buffer
  | c :: cs => storeAt (buffer.set pos c) (pos + 1) cs

/-- Modelled from the spec: the Correctness Oracle (section 2; `sprintf.h` is missing),
the library formatting of the value: the minimal decimal string and a terminator,
stored from the start of the buffer. -/
def sprintf (buffer : List Nat) (value : Int) : List Nat :=
  storeAt buffer 0 (decimalString value ++ [0])

/-- Modelled from the spec: the division loop of Naive (section 4.3; `naive.h` is
missing): divide the magnitude by 10 and append the ASCII digit of the remainder to a
temporary buffer, until the magnitude reaches 0. -/
def naiveLoop (n : Nat) (temp : List Nat) : List Nat :=
  if n / 10 = 0 then temp ++ [48 + n % 10]
  else naiveLoop (n / 10) (temp ++ [48 + n % 10])
termination_by n
decreasing_by omega

/-- Modelled from the spec: Naive (section 4.3; `naive.h` is missing): the division loop,
then the collected digits reversed, with the sign in front, into the output buffer,
and the terminator. -/
def naive (t : IntType) (buffer : List Nat) (value : Int) : List Nat :=
  let temp := naiveLoop (magnitude t value) []
  let sign := if value < 0 then [45] else []
  storeAt buffer 0 (sign ++ temp.reverse ++ [0])

/-- Modelled from the spec: the 10-entry table of Single-Digit Lookup (section 4.3; `lut.h`
is missing). -/
def digitTable : List Nat := [48, 49, 50, 51, 52, 53, 54, 55, 56, 57]

/-- Modelled from the spec: the division loop of Single-Digit Lookup (section 4.3; `lut.h`
is missing): the loop of Naive with the digit character read from the table. -/
def lutLoop (n : Nat) (temp : List Nat) : List Nat :=
  if n / 10 = 0 then temp ++ [digitTable.getD (n % 10) 0]
  else lutLoop (n / 10) (temp ++ [digitTable.getD (n % 10) 0])
termination_by n
decreasing_by omega

/-- Modelled from the spec: Single-Digit Lookup (section 4.3; `lut.h` is missing). -/
def lut (t : IntType) (buffer : List Nat) (value : Int) : List Nat :=
  let temp := lutLoop (magnitude t value) []
  let sign := if value < 0 then [45] else []
  storeAt buffer 0 (sign ++ temp.reverse ++ [0])

/-- Modelled from the spec: the cascade of comparisons of the Digit-Count Oracle (section
4.1; its header is missing): the thresholds in ascending order, `k` the count returned
when the magnitude is below the next threshold. -/
def cascade (n : Nat) : List Nat → Nat → Nat
  | [], k => k
  | p :: ps, k => if n < p then k else cascade n ps (k + 1)

/-- Modelled from the spec: the largest digit count of the unsigned type of the width of
`t` (section 4.1, "up to the type's maximum power"; the header is missing). -/
def maxDigits (t : IntType) : Nat :=
  if t.width = 32 then 10 else 20

/-- Modelled from the spec: the Digit-Count Oracle (section 4.1; its header is missing):
comparisons against `10, 100, 1000, ...` up to the largest power of ten of the type. -/
def digitCount (t : IntType) (n : Nat) : Nat :=
  cascade n ((List.range' 1 (maxDigits t - 1)).map (fun k => 10 ^ k)) 1

/-- Modelled from the spec: the fill loop of Count-then-Divide (section 4.3; `count.h` is
missing): digits stored back to front, the last one at index `pos - 1`, by division. -/
def countLoop (buffer : List Nat) (pos : Nat) (n : Nat) : List Nat :=
  if n / 10 = 0 then buffer.set (pos - 1) (48 + n % 10)
  else countLoop (buffer.set (pos - 1) (48 + n % 10)) (pos - 1) (n / 10)
termination_by n
decreasing_by omega

/-- Modelled from the spec: Count-then-Divide (section 4.3; `count.h` is missing): the digit
count first, the sign and the terminator stored at their final positions, then the
digits back to front. -/
def count (t : IntType) (buffer : List Nat) (value : Int) : List Nat :=
  let n := magnitude t value
  let digit := digitCount t n
  let first := if value < 0 then 1 else 0
  let buffer := if value < 0 then buffer.set 0 45 else buffer
  let buffer := buffer.set (first + digit) 0
  countLoop buffer (first + digit) n

/-- Modelled from the spec: the Pairwise Digit Lookup Table (section 4.2; its header is
missing): for each of `0 .. 99` its two characters, zero-padded. -/
def pairTable : List (Nat × Nat) :=
  (List.range 100).map (fun i => (48 + i / 10, 48 + i % 10))

/-- Modelled from the spec: the fill of Count-then-Lookup (section 4.3; `countlut.h` is
missing): while the magnitude is at least 100, two characters of the table per division
by 100, back to front; then the leftover, one digit or one last pair. -/
def countlutLoop (buffer : List Nat) (pos : Nat) (n : Nat) : List Nat :=
  if 100 ≤ n then
    countlutLoop
      ((buffer.set (pos - 1) (pairTable.getD (n % 100) (0, 0)).2).set (pos - 2)
        (pairTable.getD (n % 100) (0, 0)).1)
      (pos - 2) (n / 100)
  else if n < 10 then buffer.set (pos - 1) (48 + n)
  else
    (buffer.set (pos - 1) (pairTable.getD n (0, 0)).2).set (pos - 2) (pairTable.getD n (0, 0)).1
termination_by n
decreasing_by omega

/-- Modelled from the spec: Count-then-Lookup (section 4.3; `countlut.h` is missing). -/
def countlut (t : IntType) (buffer : List Nat) (value : Int) : List Nat :=
  let n := magnitude t value
  let digit := digitCount t n
  let first := if value < 0 then 1 else 0
  let buffer := if value < 0 then buffer.set 0 45 else buffer
  let buffer := buffer.set (first + digit) 0
  countlutLoop buffer (first + digit) n

/-- A buffer of `n` bytes holding the filler byte `0xCC`. -/
def filled (n : Nat) : List Nat := List.replicate n 204

/-! ## The buckets of `bench` and the repetitions of the loop of `verify` -/

/-- The state of `bench` after the first `n` passes of its loop over `digit`. -/
def benchUpTo (t : IntType) (elapsed : Nat → ℚ) (n : Nat) : BenchState :=
  (List.range' 1 n).foldl (benchDigit t elapsed)
    { start := 1, minDuration := 0, maxDuration := 0, calls := [] }

/-- The variable `start` of `bench` after `n` buckets: `T start = 1` at first, then
`start = end` at the end of each pass, where `end` is the maximum of the type in the
pass `digit = kMaxDigit` and `start * 10` in the others (`benchUpTo_eq` relates it to
`bench`). Bucket `digit` runs from `startAfter t (digit - 1)` to `startAfter t digit`. -/
def startAfter (t : IntType) : Nat → Int
  | 0 => 1
  | n + 1 =>
    if n + 1 = Traits.kMaxDigit t then numeric_limits.max t
    else t.wrap (startAfter t n * 10)

/-- The statement `i *= power` of `verify`. -/
def mulStep (t : IntType) (power : Nat) (i : Int) : Int :=
  t.wrap (i * (power : Int))

/-- The loop `do { ... i *= power; } while (last < i)` entered with `i`, stops after
exactly `n` repetitions of the test `last < i` that succeed: the first `n` products are
greater than the value before, the next one is not. -/
def stopsAfter (t : IntType) (power : Nat) (i : Int) (n : Nat) : Prop :=
  (∀ m < n, (mulStep t power)^[m] i < (mulStep t power)^[m + 1] i) ∧
    ¬ ((mulStep t power)^[n] i < (mulStep t power)^[n + 1] i)

/-- The number of passes through the body of the multiplier-10 loop of `verify`
(`iValues_ten_length`). -/
def tenCount : IntType → Nat
  | .uint32_t => 11
  | .int32_t => 11
  | .uint64_t => 20
  | .int64_t => 19

/-! ## Basic facts -/

theorem strcmp_eq_zero_iff (a b : List Nat) : strcmp a b = 0 ↔ cstr a = cstr b := by
  induction a generalizing b with
  | nil =>
    cases b with
    | nil => simp [strcmp, cstr]
    | cons y ys =>
      by_cases hy : y = 0
      · simp [strcmp, cstr, hy]
      · simp [strcmp, cstr, hy]
  | cons x xs ih =>
    cases b with
    | nil =>
      by_cases hx : x = 0
      · simp [strcmp, cstr, hx]
      · simp [strcmp, cstr, hx]
    | cons y ys =>
      by_cases hxy : x = y
      · subst hxy
        by_cases hx : x = 0
        · simp [strcmp, cstr, hx]
        · have := ih ys
          simp only [cstr] at this
          simp [strcmp, cstr, hx, this]
      · by_cases hx : x = 0
        · by_cases hy : y = 0
          · omega
          · simp [strcmp, cstr, hx, hy]
            omega
        · by_cases hy : y = 0
          · simp [strcmp, cstr, hx, hy]
          · simp [strcmp, cstr, hx, hy, hxy]
            omega

theorem test_eq (v : Int) (f g : Conv) (fname gname : String) (log : Log) :
    test v f g fname gname log =
      if mismatch f g v then
        Except.error (log ++ callEvents fname gname v ++
          [Event.error fname (cstr (f v)) gname (cstr (g v))])
      else Except.ok (log ++ callEvents fname gname v) := by
  unfold test mismatch callEvents
  simp only [ne_eq, strcmp_eq_zero_iff, List.append_assoc, List.singleton_append]

theorem runTests_append (f g : Conv) (fname gname : String) (xs ys : List Int) (log : Log) :
    runTests f g fname gname (xs ++ ys) log =
      match runTests f g fname gname xs log with
      | Except.error e => Except.error e
      | Except.ok log => runTests f g fname gname ys log := by
  induction xs generalizing log with
  | nil => simp [runTests]
  | cons x xs ih =>
    simp only [List.cons_append, runTests]
    cases h : test x f g fname gname log with
    | error e => simp
    | ok l => simp [ih]

theorem loopBody_eq (t : IntType) (f g : Conv) (fname gname : String) (i : Int) (log : Log) :
    loopBody t f g fname gname i log = runTests f g fname gname (bodyValues t i) log := by
  unfold loopBody bodyValues
  by_cases hs : numeric_limits.min t < 0
  · simp only [hs, if_true, List.cons_append, List.nil_append, runTests]
    cases h1 : test (t.wrap (i - 1)) f g fname gname log with
    | error e => rfl
    | ok l1 =>
      cases h2 : test i f g fname gname l1 with
      | error e => simp [h2]
      | ok l2 =>
        cases h3 : test (Traits.Negate t i) f g fname gname l2 with
        | error e => simp [h2, h3]
        | ok l3 =>
          cases h4 : test (Traits.Negate t (t.wrap (i + 1))) f g fname gname l3 with
          | error e => simp [h2, h3, h4]
          | ok l4 => simp [h2, h3, h4]
  · simp only [hs, if_false, List.cons_append, List.nil_append, runTests, List.append_nil]

theorem doWhile_eq (t : IntType) (f g : Conv) (fname gname : String) (power : Nat) (i : Int)
    (log : Log) :
    doWhile t f g fname gname power i log =
      runTests f g fname gname ((iValues t power i).flatMap (bodyValues t)) log := by
  induction i using iValues.induct t power generalizing log with
  | case1 i hlt ih =>
    rw [doWhile, iValues]
    simp only [hlt, if_true, List.flatMap_cons, runTests_append, loopBody_eq]
    cases runTests f g fname gname (bodyValues t i) log with
    | error e => rfl
    | ok l => simp [ih]
  | case2 i hlt =>
    rw [doWhile, iValues]
    simp only [hlt, if_false, List.flatMap_cons, List.flatMap_nil, List.append_nil, loopBody_eq]
    cases h : runTests f g fname gname (bodyValues t i) log with
    | error e => rfl
    | ok l => rfl

theorem forPower_eq (t : IntType) (f g : Conv) (fname gname : String) (log : Log) :
    forPower t f g fname gname 2 log =
      runTests f g fname gname
        ((iValues t 2 1).flatMap (bodyValues t) ++ (iValues t 10 1).flatMap (bodyValues t))
        log := by
  have h18 : ∀ l : Log, forPower t f g fname gname 18 l = Except.ok l := by
    intro l
    rw [forPower]
    simp
  have h10 : ∀ l : Log, forPower t f g fname gname 10 l =
      runTests f g fname gname ((iValues t 10 1).flatMap (bodyValues t)) l := by
    intro l
    rw [forPower]
    simp only [le_refl, if_true, doWhile_eq]
    cases runTests f g fname gname ((iValues t 10 1).flatMap (bodyValues t)) l with
    | error e => rfl
    | ok l2 => exact h18 l2
  rw [forPower, runTests_append]
  simp only [show (2 : Nat) ≤ 10 by decide, if_true, doWhile_eq]
  cases runTests f g fname gname ((iValues t 2 1).flatMap (bodyValues t)) log with
  | error e => rfl
  | ok l2 => exact h10 l2

theorem verify_eq (t : IntType) (f g : Conv) (fname gname : String) (log : Log) :
    verify t f g fname gname log =
      match runTests f g fname gname (verifyValues t) (log ++ [Event.verifying fname gname]) with
      | Except.error e => Except.error e
      | Except.ok l => Except.ok (l ++ [Event.ok]) := by
  unfold verify verifyValues
  simp only [List.cons_append, List.nil_append, runTests, forPower_eq, List.append_assoc]
  cases test (t.wrap 0) f g fname gname (log ++ [Event.verifying fname gname]) with
  | error e => rfl
  | ok l1 =>
    dsimp only
    cases test (numeric_limits.min t) f g fname gname l1 with
    | error e => rfl
    | ok l2 =>
      dsimp only
      cases test (numeric_limits.max t) f g fname gname l2 with
      | error e => rfl
      | ok l3 => rfl

theorem runTests_ok (f g : Conv) (fname gname : String) (vs : List Int) (log : Log)
    (h : ∀ v ∈ vs, ¬ mismatch f g v) :
    runTests f g fname gname vs log = Except.ok (log ++ vs.flatMap (callEvents fname gname)) := by
  induction vs generalizing log with
  | nil => simp [runTests]
  | cons v vs ih =>
    have hv : ¬ mismatch f g v := h v (List.mem_cons_self v vs)
    have hvs : ∀ w ∈ vs, ¬ mismatch f g w := fun w hw => h w (List.mem_cons_of_mem v hw)
    simp only [runTests, test_eq, hv, if_false, ih _ hvs, List.flatMap_cons, List.append_assoc]

theorem runTests_error (f g : Conv) (fname gname : String) (vs : List Int) (log : Log)
    (w : Int) (h : firstMismatch f g vs = some w) :
    runTests f g fname gname vs log =
      Except.error (log ++ (uptoMismatch f g vs).flatMap (callEvents fname gname) ++
        [Event.error fname (cstr (f w)) gname (cstr (g w))]) := by
  induction vs generalizing log with
  | nil => simp [firstMismatch] at h
  | cons v vs ih =>
    by_cases hv : mismatch f g v
    · simp only [firstMismatch, hv, if_true, Option.some.injEq] at h
      subst h
      simp [runTests, test_eq, hv, uptoMismatch]
    · simp only [firstMismatch, hv, if_false] at h
      simp only [runTests, test_eq, hv, if_false, ih _ h, uptoMismatch, List.flatMap_cons,
        List.append_assoc]

theorem firstMismatch_eq_none (f g : Conv) (vs : List Int) :
    firstMismatch f g vs = none ↔ ∀ v ∈ vs, ¬ mismatch f g v := by
  induction vs with
  | nil => simp [firstMismatch]
  | cons v vs ih =>
    by_cases hv : mismatch f g v
    · simp [firstMismatch, hv]
    · simp [firstMismatch, hv, ih]

theorem firstMismatch_some (f g : Conv) (vs : List Int) (w : Int)
    (h : firstMismatch f g vs = some w) : w ∈ vs ∧ mismatch f g w := by
  induction vs with
  | nil => simp [firstMismatch] at h
  | cons v vs ih =>
    by_cases hv : mismatch f g v
    · simp only [firstMismatch, hv, if_true, Option.some.injEq] at h
      subst h
      exact ⟨List.mem_cons_self _ _, hv⟩
    · simp only [firstMismatch, hv, if_false] at h
      exact ⟨List.mem_cons_of_mem _ (ih h).1, (ih h).2⟩

theorem iValues_of_fuel (t : IntType) (power : Nat) (fuel : Nat) (i : Int) (l : List Int)
    (h : iValuesFuel t power fuel i = some l) : iValues t power i = l := by
  induction fuel generalizing i l with
  | zero => simp [iValuesFuel] at h
  | succ n ih =>
    rw [iValues]
    by_cases hlt : i < t.wrap (i * (power : Int))
    · simp only [iValuesFuel, hlt, if_true, Option.map_eq_some'] at h
      obtain ⟨l2, hl2, rfl⟩ := h
      simp [hlt, ih _ _ hl2]
    · simp only [iValuesFuel, hlt, if_false, Option.some.injEq] at h
      simp [hlt, h]

theorem iValues_two (t : IntType) :
    iValues t 2 1 = (List.range (twoCount t)).map (fun k => (2 : Int) ^ k) := by
  cases t <;> exact iValues_of_fuel _ 2 70 1 _ (by decide)

theorem iValues_ten_uint32 :
    iValues .uint32_t 10 1 = (List.range 10).map (fun k => (10 : Int) ^ k) ++ [1410065408] :=
  iValues_of_fuel _ 10 70 1 _ (by decide)

theorem iValues_ten_int32 :
    iValues .int32_t 10 1 = (List.range 10).map (fun k => (10 : Int) ^ k) ++ [1410065408] :=
  iValues_of_fuel _ 10 70 1 _ (by decide)

theorem iValues_ten_uint64 :
    iValues .uint64_t 10 1 = (List.range 20).map (fun k => (10 : Int) ^ k) :=
  iValues_of_fuel _ 10 70 1 _ (by decide)

theorem iValues_ten_int64 :
    iValues .int64_t 10 1 = (List.range 19).map (fun k => (10 : Int) ^ k) :=
  iValues_of_fuel _ 10 70 1 _ (by decide)

theorem uptoMismatch_split (f g : Conv) (vs : List Int) (w : Int)
    (h : firstMismatch f g vs = some w) :
    ∃ pre post, vs = pre ++ w :: post ∧ (∀ v ∈ pre, ¬ mismatch f g v) ∧
      uptoMismatch f g vs = pre ++ [w] := by
  induction vs with
  | nil => simp [firstMismatch] at h
  | cons v vs ih =>
    by_cases hv : mismatch f g v
    · simp only [firstMismatch, hv, if_true, Option.some.injEq] at h
      subst h
      exact ⟨[], vs, by simp, by simp, by simp [uptoMismatch, hv]⟩
    · simp only [firstMismatch, hv, if_false] at h
      obtain ⟨pre, post, h1, h2, h3⟩ := ih h
      refine ⟨v :: pre, post, by simp [h1], ?_, by simp [uptoMismatch, hv, h3]⟩
      intro x hx
      rcases List.mem_cons.mp hx with rfl | hx
      · exact hv
      · exact h2 x hx

theorem verify_of_no_mismatch (t : IntType) (f g : Conv) (fname gname : String) (log : Log)
    (h : ∀ v ∈ verifyValues t, ¬ mismatch f g v) :
    verify t f g fname gname log =
      Except.ok (log ++ [Event.verifying fname gname] ++
        (verifyValues t).flatMap (callEvents fname gname) ++ [Event.ok]) := by
  rw [verify_eq, runTests_ok _ _ _ _ _ _ h]

theorem verify_of_mismatch (t : IntType) (f g : Conv) (fname gname : String) (log : Log)
    (w : Int) (h : firstMismatch f g (verifyValues t) = some w) :
    verify t f g fname gname log =
      Except.error (log ++ [Event.verifying fname gname] ++
        (uptoMismatch f g (verifyValues t)).flatMap (callEvents fname gname) ++
        [Event.error fname (cstr (f w)) gname (cstr (g w))]) := by
  rw [verify_eq, runTests_error _ _ _ _ _ _ _ h]

theorem verify_ok_iff (t : IntType) (f g : Conv) (fname gname : String) (log out : Log) :
    verify t f g fname gname log = Except.ok out ↔
      (∀ v ∈ verifyValues t, ¬ mismatch f g v) ∧
        out = log ++ [Event.verifying fname gname] ++
          (verifyValues t).flatMap (callEvents fname gname) ++ [Event.ok] := by
  constructor
  · intro h
    cases hm : firstMismatch f g (verifyValues t) with
    | none =>
      have hno := (firstMismatch_eq_none f g _).mp hm
      rw [verify_of_no_mismatch t f g fname gname log hno] at h
      exact ⟨hno, (Except.ok.inj h).symm⟩
    | some w =>
      rw [verify_of_mismatch t f g fname gname log w hm] at h
      cases h
  · rintro ⟨hno, rfl⟩
    exact verify_of_no_mismatch t f g fname gname log hno

theorem verify_error_iff (t : IntType) (f g : Conv) (fname gname : String) (log out : Log) :
    verify t f g fname gname log = Except.error out ↔
      ∃ w, firstMismatch f g (verifyValues t) = some w ∧
        out = log ++ [Event.verifying fname gname] ++
          (uptoMismatch f g (verifyValues t)).flatMap (callEvents fname gname) ++
          [Event.error fname (cstr (f w)) gname (cstr (g w))] := by
  constructor
  · intro h
    cases hm : firstMismatch f g (verifyValues t) with
    | none =>
      have hno := (firstMismatch_eq_none f g _).mp hm
      rw [verify_of_no_mismatch t f g fname gname log hno] at h
      cases h
    | some w =>
      rw [verify_of_mismatch t f g fname gname log w hm] at h
      exact ⟨w, rfl, (Except.error.inj h).symm⟩
  · rintro ⟨w, hm, rfl⟩
    exact verify_of_mismatch t f g fname gname log w hm

/-- Facts on the values of `i` of both passes: no arithmetic in the loop body wraps. -/
theorem iValues_range (t : IntType) :
    ∀ i ∈ iValues t 2 1 ++ iValues t 10 1,
      1 ≤ i ∧ t.wrap (i - 1) = i - 1 ∧ t.wrap (i + 1) = i + 1 ∧
        (t.isSigned = true → Traits.Negate t i = -i ∧ Traits.Negate t (i + 1) = -(i + 1)) := by
  cases t
  · rw [iValues_two, iValues_ten_uint32]; decide
  · rw [iValues_two, iValues_ten_int32]; decide
  · rw [iValues_two, iValues_ten_uint64]; decide
  · rw [iValues_two, iValues_ten_int64]; decide

theorem bodyValues_subset (t : IntType) (i : Int) (hi : i ∈ iValues t 2 1 ++ iValues t 10 1) :
    ∀ v ∈ bodyValues t i, v ∈ verifyValues t := by
  intro v hv
  unfold verifyValues
  rcases List.mem_append.mp hi with h | h
  · exact List.mem_append_left _ (List.mem_append_right _ (List.mem_flatMap.mpr ⟨i, h, hv⟩))
  · exact List.mem_append_right _ (List.mem_flatMap.mpr ⟨i, h, hv⟩)

theorem invoked_of_mem (fname gname : String) (pre post : Log) (vs : List Int) (v : Int)
    (hv : v ∈ vs) :
    invoked fname gname (pre ++ vs.flatMap (callEvents fname gname) ++ post) v := by
  unfold invoked
  constructor
  · apply List.mem_append_left
    apply List.mem_append_right
    exact List.mem_flatMap.mpr ⟨v, hv, by simp [callEvents]⟩
  · apply List.mem_append_left
    apply List.mem_append_right
    exact List.mem_flatMap.mpr ⟨v, hv, by simp [callEvents]⟩

theorem pow_two_mem (t : IntType) (k : Nat) (h : (2 : Int) ^ k ≤ numeric_limits.max t) :
    (2 : Int) ^ k ∈ iValues t 2 1 := by
  rw [iValues_two]
  refine List.mem_map.mpr ⟨k, List.mem_range.mpr ?_, rfl⟩
  by_contra hk
  have hle : twoCount t ≤ k := Nat.le_of_not_lt hk
  have hp : (2 : Int) ^ twoCount t ≤ 2 ^ k := pow_le_pow_right₀ (by norm_num) hle
  revert h hp
  cases t <;> simp [twoCount, numeric_limits.max, IntType.isSigned, IntType.width] <;> omega

theorem pow_ten_mem (t : IntType) (k : Nat) (h : (10 : Int) ^ k ≤ numeric_limits.max t) :
    (10 : Int) ^ k ∈ iValues t 10 1 := by
  have key : ∀ n : Nat, (10 : Int) ^ n > numeric_limits.max t →
      (10 : Int) ^ k ∈ (List.range n).map (fun j => (10 : Int) ^ j) := by
    intro n hn
    refine List.mem_map.mpr ⟨k, List.mem_range.mpr ?_, rfl⟩
    by_contra hk
    have hle : n ≤ k := Nat.le_of_not_lt hk
    have hp : (10 : Int) ^ n ≤ 10 ^ k := pow_le_pow_right₀ (by norm_num) hle
    omega
  cases t
  · rw [iValues_ten_uint32]
    exact List.mem_append_left _ (key 10 (by decide))
  · rw [iValues_ten_int32]
    exact List.mem_append_left _ (key 10 (by decide))
  · rw [iValues_ten_uint64]
    exact key 20 (by decide)
  · rw [iValues_ten_int64]
    exact key 19 (by decide)

theorem verifyValues_int32 :
    verifyValues .int32_t =
      [0, -2147483648, 2147483647] ++
        ((List.range 31).map (fun k => (2 : Int) ^ k)).flatMap (bodyValues .int32_t) ++
        ((List.range 10).map (fun k => (10 : Int) ^ k) ++ [1410065408]).flatMap
          (bodyValues .int32_t) := by
  unfold verifyValues
  rw [iValues_two, iValues_ten_int32]
  rfl

theorem not_pow_ten_1410065408 (k : Nat) : (10 : Int) ^ k ≠ 1410065408 := by
  intro h
  rcases Nat.lt_or_ge k 10 with hk | hk
  · interval_cases k <;> simp at h
  · have hp : (10 : Int) ^ 10 ≤ 10 ^ k := pow_le_pow_right₀ (by norm_num) hk
    rw [h] at hp
    norm_num at hp

theorem VERIFY_eq_outcomeLog (impl : Impl) (t : IntType) (f g : Algo) (log : Log) :
    VERIFY impl t f g log =
      outcomeLog (verify t (impl t f) (impl t g) (FUNC_NAME t f) (FUNC_NAME t g) log) := by
  unfold VERIFY outcomeLog
  cases verify t (impl t f) (impl t g) (FUNC_NAME t f) (FUNC_NAME t g) log <;> rfl

theorem outcomeLog_verify_append (t : IntType) (f g : Conv) (fname gname : String) (log : Log) :
    outcomeLog (verify t f g fname gname log) =
      log ++ outcomeLog (verify t f g fname gname []) := by
  cases hm : firstMismatch f g (verifyValues t) with
  | none =>
    have hno := (firstMismatch_eq_none f g _).mp hm
    rw [verify_of_no_mismatch t f g fname gname log hno,
      verify_of_no_mismatch t f g fname gname [] hno]
    simp [outcomeLog]
  | some w =>
    rw [verify_of_mismatch t f g fname gname log w hm,
      verify_of_mismatch t f g fname gname [] w hm]
    simp [outcomeLog]

theorem VERIFY_append (impl : Impl) (t : IntType) (f g : Algo) (log : Log) :
    VERIFY impl t f g log = log ++ VERIFY impl t f g [] := by
  rw [VERIFY_eq_outcomeLog, VERIFY_eq_outcomeLog, outcomeLog_verify_append]

theorem pairsVerified_calls (fname gname : String) (vs : List Int) :
    pairsVerified (vs.flatMap (callEvents fname gname)) = [] := by
  induction vs with
  | nil => rfl
  | cons v vs ih =>
    simp only [pairsVerified, List.flatMap_cons, List.filterMap_append] at ih ⊢
    rw [ih]
    simp [callEvents]

theorem pairsVerified_append (a b : Log) :
    pairsVerified (a ++ b) = pairsVerified a ++ pairsVerified b := by
  simp [pairsVerified, List.filterMap_append]

theorem pairsVerified_VERIFY (impl : Impl) (t : IntType) (f g : Algo) :
    pairsVerified (VERIFY impl t f g []) = [(FUNC_NAME t f, FUNC_NAME t g)] := by
  rw [VERIFY_eq_outcomeLog]
  cases hm : firstMismatch (impl t f) (impl t g) (verifyValues t) with
  | none =>
    have hno := (firstMismatch_eq_none _ _ _).mp hm
    rw [verify_of_no_mismatch t _ _ _ _ [] hno]
    simp only [outcomeLog, pairsVerified_append, pairsVerified_calls]
    simp [pairsVerified]
  | some w =>
    rw [verify_of_mismatch t _ _ _ _ [] w hm]
    simp only [outcomeLog, pairsVerified_append, pairsVerified_calls]
    simp [pairsVerified]

theorem Verify_eq (impl : Impl) (msc : Bool) (log : Log) :
    Verify impl msc log =
      log ++ (verifyList msc).flatMap (fun p => VERIFY impl p.1 p.2.1 p.2.2 []) ++
        [Event.puts] := by
  unfold Verify
  cases msc
  · simp only [Bool.false_eq_true, if_false, verifyList, List.append_nil]
    rw [VERIFY_append impl .int64_t .naive .countlut, VERIFY_append impl .int64_t .naive .count,
      VERIFY_append impl .int64_t .naive .lut, VERIFY_append impl .int64_t .naive .sprintf,
      VERIFY_append impl .uint64_t .naive .countlut, VERIFY_append impl .uint64_t .naive .count,
      VERIFY_append impl .uint64_t .naive .lut, VERIFY_append impl .uint64_t .naive .sprintf,
      VERIFY_append impl .int32_t .naive .countlut, VERIFY_append impl .int32_t .naive .count,
      VERIFY_append impl .int32_t .naive .lut, VERIFY_append impl .int32_t .naive .sprintf,
      VERIFY_append impl .uint32_t .naive .countlut, VERIFY_append impl .uint32_t .naive .count,
      VERIFY_append impl .uint32_t .naive .lut, VERIFY_append impl .uint32_t .naive .sprintf]
    simp [List.flatMap_cons, List.append_assoc]
  · simp only [if_true, verifyList]
    rw [VERIFY_append impl .int64_t .naive .vc,
      VERIFY_append impl .int64_t .naive .countlut, VERIFY_append impl .int64_t .naive .count,
      VERIFY_append impl .int64_t .naive .lut, VERIFY_append impl .int64_t .naive .sprintf,
      VERIFY_append impl .uint64_t .naive .vc,
      VERIFY_append impl .uint64_t .naive .countlut, VERIFY_append impl .uint64_t .naive .count,
      VERIFY_append impl .uint64_t .naive .lut, VERIFY_append impl .uint64_t .naive .sprintf,
      VERIFY_append impl .int32_t .naive .vc,
      VERIFY_append impl .int32_t .naive .countlut, VERIFY_append impl .int32_t .naive .count,
      VERIFY_append impl .int32_t .naive .lut, VERIFY_append impl .int32_t .naive .sprintf,
      VERIFY_append impl .uint32_t .naive .vc,
      VERIFY_append impl .uint32_t .naive .countlut, VERIFY_append impl .uint32_t .naive .count,
      VERIFY_append impl .uint32_t .naive .lut, VERIFY_append impl .uint32_t .naive .sprintf]
    simp [List.flatMap_cons, List.append_assoc]

theorem pairsVerified_flatMap_VERIFY (impl : Impl) (l : List (IntType × Algo × Algo)) :
    pairsVerified (l.flatMap (fun p => VERIFY impl p.1 p.2.1 p.2.2 [])) =
      l.map (fun p => (FUNC_NAME p.1 p.2.1, FUNC_NAME p.1 p.2.2)) := by
  induction l with
  | nil => simp [pairsVerified]
  | cons p l ih =>
    rw [List.flatMap_cons, pairsVerified_append, pairsVerified_VERIFY, ih, List.map_cons,
      List.singleton_append]

theorem pairsVerified_Verify (impl : Impl) (msc : Bool) :
    pairsVerified (Verify impl msc []) =
      (verifyList msc).map (fun p => (FUNC_NAME p.1 p.2.1, FUNC_NAME p.1 p.2.2)) := by
  rw [Verify_eq, pairsVerified_append, pairsVerified_append, pairsVerified_flatMap_VERIFY]
  simp [pairsVerified]

/-! ## Facts on `bench` -/

theorem benchIter_eq (t : IntType) (start end_ : Int) (n : Nat) (v : Int) (calls : List Int) :
    benchIter t start end_ n v calls =
      calls ++ (List.range n).map (fun k => (benchStep t start end_)^[k] v) := by
  induction n generalizing v calls with
  | zero => simp [benchIter]
  | succ n ih =>
    rw [benchIter, ih, List.range_succ_eq_map]
    simp [List.map_map, Function.comp_def]

theorem foldl_benchDigit_head (t : IntType) (elapsed : Nat → ℚ) (ds : List Nat)
    (s : BenchState) (c : List Int) (h : s.calls.head? = some c) :
    ((ds.foldl (benchDigit t elapsed) s).calls).head? = some c := by
  induction ds generalizing s with
  | nil => exact h
  | cons d ds ih =>
    apply ih
    cases hc : s.calls with
    | nil => simp [hc] at h
    | cons x xs =>
      rw [hc] at h
      simpa [benchDigit, hc] using h

theorem benchDigit_minDuration (t : IntType) (elapsed : Nat → ℚ) (s : BenchState) (d : Nat) :
    (benchDigit t elapsed s d).minDuration =
      if s.minDuration > elapsed d ∨ d = 1 then elapsed d else s.minDuration := rfl

theorem benchDigit_maxDuration (t : IntType) (elapsed : Nat → ℚ) (s : BenchState) (d : Nat) :
    (benchDigit t elapsed s d).maxDuration =
      if s.maxDuration < elapsed d then elapsed d else s.maxDuration := rfl

/-- The durations after the first `n` buckets. -/
theorem bench_durations_upto (t : IntType) (elapsed : Nat → ℚ) (n : Nat) (hn : 1 ≤ n) :
    ((∃ d, 1 ≤ d ∧ d ≤ n ∧
        ((List.range' 1 n).foldl (benchDigit t elapsed)
          { start := 1, minDuration := 0, maxDuration := 0, calls := [] }).minDuration =
          elapsed d) ∧
      (∀ d, 1 ≤ d → d ≤ n →
        ((List.range' 1 n).foldl (benchDigit t elapsed)
          { start := 1, minDuration := 0, maxDuration := 0, calls := [] }).minDuration ≤
          elapsed d)) ∧
    ((((List.range' 1 n).foldl (benchDigit t elapsed)
          { start := 1, minDuration := 0, maxDuration := 0, calls := [] }).maxDuration = 0 ∨
        ∃ d, 1 ≤ d ∧ d ≤ n ∧
          ((List.range' 1 n).foldl (benchDigit t elapsed)
            { start := 1, minDuration := 0, maxDuration := 0, calls := [] }).maxDuration =
            elapsed d) ∧
      0 ≤ ((List.range' 1 n).foldl (benchDigit t elapsed)
          { start := 1, minDuration := 0, maxDuration := 0, calls := [] }).maxDuration ∧
      (∀ d, 1 ≤ d → d ≤ n →
        elapsed d ≤ ((List.range' 1 n).foldl (benchDigit t elapsed)
          { start := 1, minDuration := 0, maxDuration := 0, calls := [] }).maxDuration)) := by
  induction n with
  | zero => omega
  | succ n ih =>
    rw [List.range'_1_concat, List.foldl_append, List.foldl_cons, List.foldl_nil,
      benchDigit_minDuration, benchDigit_maxDuration]
    generalize hs : (List.range' 1 n).foldl (benchDigit t elapsed)
      { start := 1, minDuration := 0, maxDuration := 0, calls := [] } = s at ih ⊢
    rcases Nat.eq_zero_or_pos n with h0 | hpos
    · subst h0
      have hs0 : s = { start := 1, minDuration := 0, maxDuration := 0, calls := [] } := by
        rw [← hs]; rfl
      subst hs0
      refine ⟨⟨⟨1, le_refl _, le_refl _, by simp⟩, ?_⟩, ?_, ?_, ?_⟩
      · intro d h1 h2
        have : d = 1 := by omega
        subst this
        simp
      · by_cases h : (0 : ℚ) < elapsed (1 + 0)
        · right
          exact ⟨1, le_refl _, le_refl _, by simp [h]⟩
        · left
          simp [h]
      · by_cases h : (0 : ℚ) < elapsed (1 + 0)
        · simp only [h, if_true]; exact le_of_lt h
        · simp [h]
      · intro d h1 h2
        have : d = 1 := by omega
        subst this
        by_cases h : (0 : ℚ) < elapsed (1 + 0)
        · simp [h]
        · simp only [h, if_false]; exact le_of_not_lt h
    · obtain ⟨⟨⟨dm, hdm1, hdm2, hdm⟩, hmin⟩, hmaxEq, hmax0, hmax⟩ := ih hpos
      have hne : ¬ (1 + n = 1) := by omega
      simp only [hne, or_false]
      refine ⟨⟨?_, ?_⟩, ?_, ?_, ?_⟩
      · by_cases h : s.minDuration > elapsed (1 + n)
        · exact ⟨1 + n, by omega, by omega, by simp [h]⟩
        · exact ⟨dm, hdm1, by omega, by rw [if_neg h]; exact hdm⟩
      · intro d h1 h2
        by_cases h : s.minDuration > elapsed (1 + n)
        · simp only [h, if_true]
          rcases Nat.lt_or_ge d (1 + n) with hd | hd
          · exact le_trans (le_of_lt h) (hmin d h1 (by omega))
          · have : d = 1 + n := by omega
            rw [this]
        · simp only [h, if_false]
          rcases Nat.lt_or_ge d (1 + n) with hd | hd
          · exact hmin d h1 (by omega)
          · have : d = 1 + n := by omega
            rw [this]
            exact le_of_not_lt h
      · by_cases h : s.maxDuration < elapsed (1 + n)
        · right
          exact ⟨1 + n, by omega, by omega, by simp [h]⟩
        · simp only [h, if_false]
          rcases hmaxEq with h0 | ⟨d, hd1, hd2, hd⟩
          · left; exact h0
          · right; exact ⟨d, hd1, by omega, hd⟩
      · by_cases h : s.maxDuration < elapsed (1 + n)
        · simp only [h, if_true]; exact le_trans hmax0 (le_of_lt h)
        · simp only [h, if_false]; exact hmax0
      · intro d h1 h2
        by_cases h : s.maxDuration < elapsed (1 + n)
        · simp only [h, if_true]
          rcases Nat.lt_or_ge d (1 + n) with hd | hd
          · exact le_trans (hmax d h1 (by omega)) (le_of_lt h)
          · have : d = 1 + n := by omega
            rw [this]
        · simp only [h, if_false]
          rcases Nat.lt_or_ge d (1 + n) with hd | hd
          · exact hmax d h1 (by omega)
          · have : d = 1 + n := by omega
            rw [this]
            exact le_of_not_lt h

/-! ## Facts on decimal strings -/

theorem decimalDigits_lt (n : Nat) (h : n < 10) : decimalDigits n = [48 + n] := by
  rw [decimalDigits, if_pos h]

theorem decimalDigits_ge (n : Nat) (h : 10 ≤ n) :
    decimalDigits n = decimalDigits (n / 10) ++ [48 + n % 10] := by
  rw [decimalDigits, if_neg (by omega)]

theorem decimalDigits_length_le (k : Nat) (n : Nat) (h : n < 10 ^ (k + 1)) :
    (decimalDigits n).length ≤ k + 1 := by
  induction k generalizing n with
  | zero =>
    rw [decimalDigits_lt n (by simpa using h)]
    simp
  | succ k ih =>
    rcases Nat.lt_or_ge n 10 with h10 | h10
    · rw [decimalDigits_lt n h10]
      simp
    · rw [decimalDigits_ge n h10, List.length_append, List.length_singleton]
      have hdiv : n / 10 < 10 ^ (k + 1) := by
        apply Nat.div_lt_of_lt_mul
        rw [pow_succ] at h
        omega
      have := ih (n / 10) hdiv
      omega

theorem decimalString_length_le (v : Int) (k : Nat) (h : v.natAbs < 10 ^ (k + 1)) :
    (decimalString v).length ≤ (if v < 0 then 1 else 0) + (k + 1) := by
  unfold decimalString
  have := decimalDigits_length_le k v.natAbs h
  split <;> simp <;> omega

theorem decimalString_fits (t : IntType) (v : Int) (hmin : numeric_limits.min t ≤ v)
    (hmax : v ≤ numeric_limits.max t) :
    (decimalString v).length + 1 ≤ Traits.kBufferSize t := by
  cases t
  · have hb : v.natAbs < 10 ^ (9 + 1) := by
      simp [numeric_limits.min, numeric_limits.max, IntType.isSigned, IntType.width] at hmin hmax
      omega
    have hl := decimalString_length_le v 9 hb
    have hn : ¬ v < 0 := by
      simp [numeric_limits.min, IntType.isSigned] at hmin
      omega
    simp only [hn, if_false] at hl
    simp only [Traits.kBufferSize]
    omega
  · have hb : v.natAbs < 10 ^ (9 + 1) := by
      simp [numeric_limits.min, numeric_limits.max, IntType.isSigned, IntType.width] at hmin hmax
      omega
    have hl := decimalString_length_le v 9 hb
    simp only [Traits.kBufferSize]
    split at hl <;> omega
  · have hb : v.natAbs < 10 ^ (19 + 1) := by
      simp [numeric_limits.min, numeric_limits.max, IntType.isSigned, IntType.width] at hmin hmax
      omega
    have hl := decimalString_length_le v 19 hb
    have hn : ¬ v < 0 := by
      simp [numeric_limits.min, IntType.isSigned] at hmin
      omega
    simp only [hn, if_false] at hl
    simp only [Traits.kBufferSize]
    omega
  · have hb : v.natAbs < 10 ^ (18 + 1) := by
      simp [numeric_limits.min, numeric_limits.max, IntType.isSigned, IntType.width] at hmin hmax
      omega
    have hl := decimalString_length_le v 18 hb
    simp only [Traits.kBufferSize]
    split at hl <;> omega

theorem limits_min_le_max (t : IntType) : numeric_limits.min t ≤ numeric_limits.max t := by
  cases t <;> decide

/-! ## Facts on the conversion algorithms -/

theorem magnitude_eq_natAbs (t : IntType) (v : Int) (hmin : numeric_limits.min t ≤ v)
    (hmax : v ≤ numeric_limits.max t) : magnitude t v = v.natAbs := by
  unfold magnitude
  cases t <;>
    simp only [numeric_limits.min, numeric_limits.max, IntType.isSigned, IntType.width,
      if_true, if_false, Bool.false_eq_true] at hmin hmax ⊢ <;>
    norm_num at hmin hmax ⊢ <;>
    split <;> omega

theorem set_middle (a b : List Nat) (x c : Nat) (pos : Nat) (h : pos = a.length) :
    (a ++ x :: b).set pos c = a ++ c :: b := by
  subst h
  rw [List.set_append_right _ _ (le_refl _)]
  simp

theorem storeAt_middle (bytes a mid b : List Nat) (h : mid.length = bytes.length) :
    storeAt (a ++ mid ++ b) a.length bytes = a ++ bytes ++ b := by
  induction bytes generalizing a mid with
  | nil =>
    have : mid = [] := List.length_eq_zero.mp h
    subst this
    simp [storeAt]
  | cons c cs ih =>
    cases mid with
    | nil => simp at h
    | cons x mid =>
      have hlen : mid.length = cs.length := by simpa using h
      have hset : (a ++ x :: mid ++ b).set a.length c = (a ++ [c]) ++ mid ++ b := by
        simp
      rw [storeAt, hset]
      have := ih (a ++ [c]) mid hlen
      simpa using this

theorem storeAt_zero (buffer bytes : List Nat) (h : bytes.length ≤ buffer.length) :
    storeAt buffer 0 bytes = bytes ++ buffer.drop bytes.length := by
  have := storeAt_middle bytes [] (buffer.take bytes.length) (buffer.drop bytes.length)
    (by simp [h])
  simpa using this

theorem naiveLoop_eq (n : Nat) (temp : List Nat) :
    naiveLoop n temp = temp ++ (decimalDigits n).reverse := by
  induction n using Nat.strong_induction_on generalizing temp with
  | _ n ih =>
    rw [naiveLoop]
    by_cases h : n / 10 = 0
    · have hn : n < 10 := by omega
      rw [if_pos h, decimalDigits_lt n hn, Nat.mod_eq_of_lt hn]
      rfl
    · have hn : 10 ≤ n := by omega
      rw [if_neg h, ih (n / 10) (by omega), decimalDigits_ge n hn]
      simp

theorem digitTable_getD (d : Nat) (h : d < 10) : digitTable.getD d 0 = 48 + d := by
  revert d
  decide

theorem lutLoop_eq (n : Nat) (temp : List Nat) :
    lutLoop n temp = temp ++ (decimalDigits n).reverse := by
  induction n using Nat.strong_induction_on generalizing temp with
  | _ n ih =>
    rw [lutLoop, digitTable_getD (n % 10) (Nat.mod_lt _ (by decide))]
    by_cases h : n / 10 = 0
    · have hn : n < 10 := by omega
      rw [if_pos h, decimalDigits_lt n hn, Nat.mod_eq_of_lt hn]
      rfl
    · have hn : 10 ≤ n := by omega
      rw [if_neg h, ih (n / 10) (by omega), decimalDigits_ge n hn]
      simp

theorem sprintf_eq (t : IntType) (buffer : List Nat) (v : Int)
    (hmin : numeric_limits.min t ≤ v) (hmax : v ≤ numeric_limits.max t)
    (hlen : buffer.length = Traits.kBufferSize t) :
    sprintf buffer v = decimalString v ++ 0 :: buffer.drop ((decimalString v).length + 1) := by
  have hfit := decimalString_fits t v hmin hmax
  unfold sprintf
  rw [storeAt_zero _ _ (by simp; omega)]
  simp

theorem naive_eq_sprintf (t : IntType) (buffer : List Nat) (v : Int)
    (hmin : numeric_limits.min t ≤ v) (hmax : v ≤ numeric_limits.max t) :
    naive t buffer v = sprintf buffer v := by
  unfold naive sprintf decimalString
  rw [magnitude_eq_natAbs t v hmin hmax, naiveLoop_eq]
  simp

theorem lut_eq_sprintf (t : IntType) (buffer : List Nat) (v : Int)
    (hmin : numeric_limits.min t ≤ v) (hmax : v ≤ numeric_limits.max t) :
    lut t buffer v = sprintf buffer v := by
  unfold lut sprintf decimalString
  rw [magnitude_eq_natAbs t v hmin hmax, lutLoop_eq]
  simp

theorem decimalDigits_length_eq (k : Nat) (n : Nat) (hlo : k = 0 ∨ 10 ^ k ≤ n)
    (hhi : n < 10 ^ (k + 1)) : (decimalDigits n).length = k + 1 := by
  induction k generalizing n with
  | zero =>
    rw [decimalDigits_lt n (by simpa using hhi)]
    rfl
  | succ k ih =>
    have hlo2 : 10 ^ (k + 1) ≤ n := by
      rcases hlo with h | h
      · omega
      · exact h
    have hpos : 0 < 10 ^ k := pow_pos (by decide) k
    have h10 : 10 ≤ n := by
      rw [pow_succ] at hlo2
      omega
    rw [decimalDigits_ge n h10, List.length_append, List.length_singleton]
    have hdivlo : 10 ^ k ≤ n / 10 := by
      rw [pow_succ] at hlo2
      omega
    have hdivhi : n / 10 < 10 ^ (k + 1) := by
      rw [pow_succ] at hhi
      omega
    rw [ih (n / 10) (Or.inr hdivlo) hdivhi]

theorem cascade_eq (n : Nat) (len : Nat) (k : Nat) (hlo : k = 0 ∨ 10 ^ k ≤ n)
    (hhi : n < 10 ^ (k + 1 + len)) :
    cascade n ((List.range' (k + 1) len).map (fun j => 10 ^ j)) (k + 1) =
      (decimalDigits n).length := by
  induction len generalizing k with
  | zero =>
    rw [decimalDigits_length_eq k n hlo hhi]
    rfl
  | succ len ih =>
    rw [List.range'_succ, List.map_cons, cascade]
    by_cases h : n < 10 ^ (k + 1)
    · rw [if_pos h, decimalDigits_length_eq k n hlo h]
    · rw [if_neg h]
      apply ih (k + 1) (Or.inr (Nat.le_of_not_lt h))
      have : k + 1 + 1 + len = k + 1 + (len + 1) := by omega
      rw [this]
      exact hhi

theorem digitCount_eq (t : IntType) (n : Nat) (h : n < 10 ^ maxDigits t) :
    digitCount t n = (decimalDigits n).length := by
  unfold digitCount
  have hm : maxDigits t = 0 + 1 + (maxDigits t - 1) := by
    cases t <;> decide
  rw [hm] at h
  exact cascade_eq n (maxDigits t - 1) 0 (Or.inl rfl) h

theorem decimalDigits_ne_nil (n : Nat) : decimalDigits n ≠ [] := by
  rw [decimalDigits]
  split <;> simp

theorem countLoop_eq (n : Nat) (a mid b : List Nat)
    (h : mid.length = (decimalDigits n).length) :
    countLoop (a ++ mid ++ b) (a.length + mid.length) n = a ++ decimalDigits n ++ b := by
  induction n using Nat.strong_induction_on generalizing mid b with
  | _ n ih =>
    rcases List.eq_nil_or_concat mid with hnil | ⟨mid2, x, hmid⟩
    · subst hnil
      have := decimalDigits_ne_nil n
      have h0 : (decimalDigits n).length = 0 := by simpa using h.symm
      exact absurd (List.length_eq_zero.mp h0) this
    · rw [List.concat_eq_append] at hmid
      subst hmid
      have hpos : a.length + (mid2 ++ [x]).length - 1 = (a ++ mid2).length := by simp
      have hset : ∀ c, (a ++ (mid2 ++ [x]) ++ b).set (a.length + (mid2 ++ [x]).length - 1) c =
          a ++ mid2 ++ c :: b := by
        intro c
        simp
      rw [countLoop, hset]
      by_cases hz : n / 10 = 0
      · have hn : n < 10 := by omega
        rw [if_pos hz]
        rw [decimalDigits_lt n hn] at h ⊢
        have hm : mid2 = [] := by
          apply List.length_eq_zero.mp
          simpa using h
        subst hm
        rw [Nat.mod_eq_of_lt hn]
        simp
      · have hn : 10 ≤ n := by omega
        rw [if_neg hz]
        rw [decimalDigits_ge n hn] at h ⊢
        have hm : mid2.length = (decimalDigits (n / 10)).length := by simpa using h
        have hp : a.length + (mid2 ++ [x]).length - 1 = a.length + mid2.length := by simp
        rw [hp, ih (n / 10) (by omega) mid2 ((48 + n % 10) :: b) hm]
        simp

theorem pairTable_getD (i : Nat) (h : i < 100) :
    pairTable.getD i (0, 0) = (48 + i / 10, 48 + i % 10) := by
  revert i
  decide

theorem decimalDigits_two (n : Nat) (h10 : 10 ≤ n) (h100 : n < 100) :
    decimalDigits n = [48 + n / 10, 48 + n % 10] := by
  rw [decimalDigits_ge n h10, decimalDigits_lt (n / 10) (by omega)]
  rfl

theorem decimalDigits_ge_hundred (n : Nat) (h : 100 ≤ n) :
    decimalDigits n = decimalDigits (n / 100) ++ [48 + n % 100 / 10, 48 + n % 100 % 10] := by
  rw [decimalDigits_ge n (by omega), decimalDigits_ge (n / 10) (by omega)]
  have h1 : n / 10 / 10 = n / 100 := by omega
  have h2 : n / 10 % 10 = n % 100 / 10 := by omega
  have h3 : n % 10 = n % 100 % 10 := by omega
  rw [h1, h2, ← h3]
  simp

theorem countlutLoop_eq (n : Nat) (a mid b : List Nat)
    (h : mid.length = (decimalDigits n).length) :
    countlutLoop (a ++ mid ++ b) (a.length + mid.length) n = a ++ decimalDigits n ++ b := by
  induction n using Nat.strong_induction_on generalizing mid b with
  | _ n ih =>
    rw [countlutLoop]
    by_cases h100 : 100 ≤ n
    · rw [if_pos h100, pairTable_getD (n % 100) (Nat.mod_lt _ (by decide))]
      rw [decimalDigits_ge_hundred n h100] at h ⊢
      have hl : mid.length = (decimalDigits (n / 100)).length + 2 := by simpa using h
      have hsplit : ∃ mid2 x y, mid = mid2 ++ [x, y] := by
        rcases List.eq_nil_or_concat mid with hnil | ⟨m1, y, hm1⟩
        · subst hnil
          simp at hl
        · rw [List.concat_eq_append] at hm1
          subst hm1
          rcases List.eq_nil_or_concat m1 with hnil | ⟨m2, x, hm2⟩
          · subst hnil
            simp at hl
          · rw [List.concat_eq_append] at hm2
            subst hm2
            exact ⟨m2, x, y, by simp⟩
      obtain ⟨mid2, x, y, hsplit⟩ := hsplit
      subst hsplit
      have hm : mid2.length = (decimalDigits (n / 100)).length := by
        simp at hl; omega
      have hset : ∀ c d, ((a ++ (mid2 ++ [x, y]) ++ b).set
          (a.length + (mid2 ++ [x, y]).length - 1) d).set
          (a.length + (mid2 ++ [x, y]).length - 2) c = a ++ mid2 ++ c :: d :: b := by
        intro c d
        have e1 : a ++ (mid2 ++ [x, y]) ++ b = (a ++ mid2 ++ [x]) ++ y :: b := by simp
        have e2 : a ++ mid2 ++ [x] ++ d :: b = (a ++ mid2) ++ x :: d :: b := by simp
        rw [e1, set_middle _ _ _ _ _ (by simp), e2, set_middle _ _ _ _ _ (by simp; omega)]
      have hp : a.length + (mid2 ++ [x, y]).length - 2 = a.length + mid2.length := by
        simp; omega
      rw [hset, hp, ih (n / 100) (by omega) mid2 _ hm]
      simp
    · rw [if_neg h100]
      by_cases h10 : n < 10
      · rw [if_pos h10]
        rw [decimalDigits_lt n h10] at h ⊢
        cases mid with
        | nil => simp at h
        | cons x mid2 =>
          have hm : mid2 = [] := by
            apply List.length_eq_zero.mp
            simpa using h
          subst hm
          simp
      · rw [if_neg h10, pairTable_getD n (by omega)]
        rw [decimalDigits_two n (by omega) (by omega)] at h ⊢
        cases mid with
        | nil => simp at h
        | cons x mid2 =>
          cases mid2 with
          | nil => simp at h
          | cons y mid3 =>
            have hm : mid3 = [] := by
              apply List.length_eq_zero.mp
              simpa using h
            subst hm
            have e1 : a ++ [x, y] ++ b = (a ++ [x]) ++ y :: b := by simp
            have e2 : a ++ [x] ++ (48 + n % 10) :: b = a ++ x :: (48 + n % 10) :: b := by simp
            rw [e1, set_middle _ _ _ _ _ (by simp), e2, set_middle _ _ _ _ _ (by simp)]
            simp

theorem buffer_split (buffer : List Nat) (i j : Nat) (h : i + j < buffer.length) :
    ∃ p mid x rest, buffer = p ++ mid ++ x :: rest ∧ p.length = i ∧ mid.length = j := by
  refine ⟨buffer.take i, (buffer.drop i).take j, buffer[i + j], buffer.drop (i + j + 1), ?_, ?_, ?_⟩
  · have h1 : buffer = buffer.take i ++ buffer.drop i := (List.take_append_drop i buffer).symm
    have h2 : buffer.drop i = (buffer.drop i).take j ++ (buffer.drop i).drop j :=
      (List.take_append_drop j _).symm
    have h3 : (buffer.drop i).drop j = buffer[i + j] :: buffer.drop (i + j + 1) := by
      rw [List.drop_drop]
      exact List.drop_eq_getElem_cons h
    rw [← h3, List.append_assoc, ← h2, ← h1]
  · simp; omega
  · simp; omega

theorem sprintf_split (v : Int) (old rest : List Nat)
    (h : old.length = (decimalString v).length + 1) :
    sprintf (old ++ rest) v = decimalString v ++ 0 :: rest := by
  unfold sprintf
  have := storeAt_middle (decimalString v ++ [0]) [] old rest (by simp [h])
  simpa using this

theorem magnitude_lt (t : IntType) (v : Int) (hmin : numeric_limits.min t ≤ v)
    (hmax : v ≤ numeric_limits.max t) : v.natAbs < 10 ^ maxDigits t := by
  cases t <;>
    simp only [numeric_limits.min, numeric_limits.max, IntType.isSigned, IntType.width,
      if_true, if_false, Bool.false_eq_true, maxDigits] at hmin hmax ⊢ <;>
    norm_num at hmin hmax ⊢ <;>
    omega

theorem count_split (t : IntType) (v : Int) (hmin : numeric_limits.min t ≤ v)
    (hmax : v ≤ numeric_limits.max t) (p mid rest : List Nat) (x : Nat)
    (hp : p.length = if v < 0 then 1 else 0)
    (hmid : mid.length = (decimalDigits v.natAbs).length) :
    count t (p ++ mid ++ x :: rest) v = decimalString v ++ 0 :: rest := by
  unfold count decimalString
  simp only []
  rw [magnitude_eq_natAbs t v hmin hmax, digitCount_eq t _ (magnitude_lt t v hmin hmax)]
  by_cases hneg : v < 0
  · simp only [hneg, if_true] at hp ⊢
    obtain ⟨y, rfl⟩ := List.length_eq_one.mp hp
    have e1 : ([y] ++ mid ++ x :: rest).set 0 45 = ([45] ++ mid) ++ x :: rest := by simp
    rw [e1, set_middle _ _ _ _ _ (by simp [hmid]; omega)]
    have e2 : [45] ++ mid ++ 0 :: rest = [45] ++ mid ++ (0 :: rest) := rfl
    have e3 : 1 + (decimalDigits v.natAbs).length = [45].length + mid.length := by
      simp [hmid]
    rw [e3, countLoop_eq _ _ _ _ hmid]
  · simp only [hneg, if_false] at hp ⊢
    have hp2 : p = [] := List.length_eq_zero.mp hp
    subst hp2
    have e1 : [] ++ mid ++ x :: rest = mid ++ x :: rest := by simp
    rw [e1, set_middle _ _ _ _ _ (by simp [hmid])]
    have e2 : mid ++ 0 :: rest = [] ++ mid ++ (0 :: rest) := by simp
    have e3 : 0 + (decimalDigits v.natAbs).length = ([] : List Nat).length + mid.length := by
      simp [hmid]
    rw [e2, e3, countLoop_eq _ _ _ _ hmid]

theorem countlut_split (t : IntType) (v : Int) (hmin : numeric_limits.min t ≤ v)
    (hmax : v ≤ numeric_limits.max t) (p mid rest : List Nat) (x : Nat)
    (hp : p.length = if v < 0 then 1 else 0)
    (hmid : mid.length = (decimalDigits v.natAbs).length) :
    countlut t (p ++ mid ++ x :: rest) v = decimalString v ++ 0 :: rest := by
  unfold countlut decimalString
  simp only []
  rw [magnitude_eq_natAbs t v hmin hmax, digitCount_eq t _ (magnitude_lt t v hmin hmax)]
  by_cases hneg : v < 0
  · simp only [hneg, if_true] at hp ⊢
    obtain ⟨y, rfl⟩ := List.length_eq_one.mp hp
    have e1 : ([y] ++ mid ++ x :: rest).set 0 45 = ([45] ++ mid) ++ x :: rest := by simp
    rw [e1, set_middle _ _ _ _ _ (by simp [hmid]; omega)]
    have e2 : [45] ++ mid ++ 0 :: rest = [45] ++ mid ++ (0 :: rest) := rfl
    have e3 : 1 + (decimalDigits v.natAbs).length = [45].length + mid.length := by
      simp [hmid]
    rw [e3, countlutLoop_eq _ _ _ _ hmid]
  · simp only [hneg, if_false] at hp ⊢
    have hp2 : p = [] := List.length_eq_zero.mp hp
    subst hp2
    have e1 : [] ++ mid ++ x :: rest = mid ++ x :: rest := by simp
    rw [e1, set_middle _ _ _ _ _ (by simp [hmid])]
    have e2 : mid ++ 0 :: rest = [] ++ mid ++ (0 :: rest) := by simp
    have e3 : 0 + (decimalDigits v.natAbs).length = ([] : List Nat).length + mid.length := by
      simp [hmid]
    rw [e2, e3, countlutLoop_eq _ _ _ _ hmid]

theorem decimalString_length (v : Int) :
    (decimalString v).length = (if v < 0 then 1 else 0) + (decimalDigits v.natAbs).length := by
  unfold decimalString
  split
  · simp; omega
  · simp

theorem count_eq_sprintf (t : IntType) (buffer : List Nat) (v : Int)
    (hmin : numeric_limits.min t ≤ v) (hmax : v ≤ numeric_limits.max t)
    (hlen : buffer.length = Traits.kBufferSize t) :
    count t buffer v = sprintf buffer v ∧ countlut t buffer v = sprintf buffer v := by
  have hfit := decimalString_fits t v hmin hmax
  have hL := decimalString_length v
  obtain ⟨p, mid, x, rest, hb, hp, hmid⟩ :=
    buffer_split buffer (if v < 0 then 1 else 0) (decimalDigits v.natAbs).length (by omega)
  have hs : sprintf buffer v = decimalString v ++ 0 :: rest := by
    have e : buffer = (p ++ mid ++ [x]) ++ rest := by simp [hb]
    rw [e]
    apply sprintf_split
    simp only [List.length_append, List.length_singleton, hp, hmid, hL]
  rw [hs, hb]
  exact ⟨count_split t v hmin hmax p mid rest x hp hmid,
    countlut_split t v hmin hmax p mid rest x hp hmid⟩

theorem decimalDigits_nonzero (n : Nat) : ∀ c ∈ decimalDigits n, c ≠ 0 := by
  induction n using Nat.strong_induction_on with
  | _ n ih =>
    intro c hc
    rcases Nat.lt_or_ge n 10 with h | h
    · rw [decimalDigits_lt n h] at hc
      simp at hc
      omega
    · rw [decimalDigits_ge n h] at hc
      rcases List.mem_append.mp hc with h1 | h1
      · exact ih (n / 10) (by omega) c h1
      · simp at h1
        omega

theorem cstr_decimalString (v : Int) (rest : List Nat) :
    cstr (decimalString v ++ 0 :: rest) = decimalString v := by
  have hnz : ∀ c ∈ decimalString v, c ≠ 0 := by
    intro c hc
    unfold decimalString at hc
    rcases List.mem_append.mp hc with h1 | h1
    · split at h1
      · simp at h1
        omega
      · simp at h1
    · exact decimalDigits_nonzero _ c h1
  unfold cstr
  rw [List.takeWhile_append_of_pos (by simpa using hnz)]
  simp

theorem call_mem_passLog (fname gname name : String) (vs : List Int) (v : Int)
    (h : Event.call name v ∈
      [] ++ [Event.verifying fname gname] ++ vs.flatMap (callEvents fname gname) ++
        [Event.ok]) : v ∈ vs := by
  simp only [List.nil_append, List.mem_append, List.mem_singleton, List.mem_flatMap,
    callEvents, List.mem_cons, List.mem_nil_iff, or_false, reduceCtorEq, false_or] at h
  obtain ⟨a, ha, h1 | h1⟩ := h
  · injection h1 with _ h2
    rw [h2]; exact ha
  · injection h1 with _ h2
    rw [h2]; exact ha

/-! ## The conversion algorithms agree with the oracle -/

/-- C1: for each of the four types and every value of the type, each of the four
conversion algorithms, handed a buffer of `kBufferSize` bytes, leaves in it the minimal
decimal string of the value and a terminator, the rest of the buffer untouched; this is
byte for byte what the oracle leaves, and `strcmp` with the buffer of the oracle is `0`
whatever the two buffers held before. -/
theorem conversions_equal_sprintf (t : IntType) (v : Int)
    (hmin : numeric_limits.min t ≤ v) (hmax : v ≤ numeric_limits.max t)
    (buffer1 buffer2 : List Nat) (hlen1 : buffer1.length = Traits.kBufferSize t)
    (hlen2 : buffer2.length = Traits.kBufferSize t) :
    (naive t buffer1 v = sprintf buffer1 v ∧ lut t buffer1 v = sprintf buffer1 v ∧
      count t buffer1 v = sprintf buffer1 v ∧ countlut t buffer1 v = sprintf buffer1 v) ∧
    sprintf buffer1 v =
      decimalString v ++ 0 :: buffer1.drop ((decimalString v).length + 1) ∧
    (strcmp (naive t buffer1 v) (sprintf buffer2 v) = 0 ∧
      strcmp (lut t buffer1 v) (sprintf buffer2 v) = 0 ∧
      strcmp (count t buffer1 v) (sprintf buffer2 v) = 0 ∧
      strcmp (countlut t buffer1 v) (sprintf buffer2 v) = 0) := by
  have h1 := naive_eq_sprintf t buffer1 v hmin hmax
  have h2 := lut_eq_sprintf t buffer1 v hmin hmax
  obtain ⟨h3, h4⟩ := count_eq_sprintf t buffer1 v hmin hmax hlen1
  have hs1 := sprintf_eq t buffer1 v hmin hmax hlen1
  have hs2 := sprintf_eq t buffer2 v hmin hmax hlen2
  have hcmp : strcmp (sprintf buffer1 v) (sprintf buffer2 v) = 0 := by
    rw [strcmp_eq_zero_iff, hs1, hs2, cstr_decimalString, cstr_decimalString]
  refine ⟨⟨h1, h2, h3, h4⟩, hs1, ?_, ?_, ?_, ?_⟩
  · rw [h1]; exact hcmp
  · rw [h2]; exact hcmp
  · rw [h3]; exact hcmp
  · rw [h4]; exact hcmp

/-- Witness of C1: the minimum of `int32_t`, with a buffer of filler bytes for the
algorithm and a buffer of zeros for the oracle. -/
theorem conversions_equal_sprintf_witness :
    numeric_limits.min .int32_t ≤ -2147483648 ∧
      (-2147483648 : Int) ≤ numeric_limits.max .int32_t ∧
      (filled 12).length = Traits.kBufferSize .int32_t ∧
      (List.replicate 12 0).length = Traits.kBufferSize .int32_t ∧
      countlut .int32_t (filled 12) (-2147483648) = sprintf (filled 12) (-2147483648) ∧
      strcmp (countlut .int32_t (filled 12) (-2147483648))
        (sprintf (List.replicate 12 0) (-2147483648)) = 0 :=
  ⟨by decide, by decide, by decide, by decide,
   (conversions_equal_sprintf .int32_t (-2147483648) (by decide) (by decide)
      (filled 12) (List.replicate 12 0) (by decide) (by decide)).1.2.2.2,
   (conversions_equal_sprintf .int32_t (-2147483648) (by decide) (by decide)
      (filled 12) (List.replicate 12 0) (by decide) (by decide)).2.2.2.2.2⟩

/-! ## The size of the buffers -/

/-- C2: for each of the four types and every value of the type, the minimal decimal
string of the value and one terminator byte fit in `Traits<T>::kBufferSize` bytes
(`11`, `12`, `21`, `22`); in particular for the minimum and the maximum of the type. -/
theorem decimalString_fits_kBufferSize (t : IntType) (v : Int)
    (hmin : numeric_limits.min t ≤ v) (hmax : v ≤ numeric_limits.max t) :
    (decimalString v).length + 1 ≤ Traits.kBufferSize t ∧
      (decimalString (numeric_limits.min t)).length + 1 ≤ Traits.kBufferSize t ∧
      (decimalString (numeric_limits.max t)).length + 1 ≤ Traits.kBufferSize t ∧
      Traits.kBufferSize t =
        (match t with
          | .uint32_t => 11
          | .int32_t => 12
          | .uint64_t => 21
          | .int64_t => 22) :=
  ⟨decimalString_fits t v hmin hmax,
   decimalString_fits t _ (le_refl _) (limits_min_le_max t),
   decimalString_fits t _ (limits_min_le_max t) (le_refl _),
   by cases t <;> rfl⟩

/-- Witness of C2: the minimum of `int32_t`, `-2147483648`, whose string has `11`
characters. -/
theorem decimalString_fits_kBufferSize_witness :
    numeric_limits.min .int32_t ≤ -2147483648 ∧ (-2147483648 : Int) ≤ numeric_limits.max .int32_t ∧
      (decimalString (-2147483648)).length + 1 ≤ Traits.kBufferSize .int32_t :=
  ⟨by decide, by decide,
   (decimalString_fits_kBufferSize .int32_t (-2147483648) (by decide) (by decide)).1⟩

/-! ## The boundary values of `verify` -/

/-- C3: when `verify` ends without a mismatch, both functions have been invoked on
`0`, on the minimum and the maximum of the type, on `2^k - 1` and `2^k` for every
`k` with `2^k <= max`, and on `10^k - 1` and `10^k` for every `k` with
`10^k <= max`. -/
theorem verify_tests_boundary_values (t : IntType) (f g : Conv) (fname gname : String)
    (log out : Log) (h : verify t f g fname gname log = Except.ok out) :
    invoked fname gname out 0 ∧
    invoked fname gname out (numeric_limits.min t) ∧
    invoked fname gname out (numeric_limits.max t) ∧
    (∀ k : Nat, (2 : Int) ^ k ≤ numeric_limits.max t →
      invoked fname gname out (2 ^ k - 1) ∧ invoked fname gname out (2 ^ k)) ∧
    (∀ k : Nat, (10 : Int) ^ k ≤ numeric_limits.max t →
      invoked fname gname out (10 ^ k - 1) ∧ invoked fname gname out (10 ^ k)) := by
  obtain ⟨_, rfl⟩ := (verify_ok_iff t f g fname gname log out).mp h
  have hbody : ∀ i ∈ iValues t 2 1 ++ iValues t 10 1,
      invoked fname gname (log ++ [Event.verifying fname gname] ++
        (verifyValues t).flatMap (callEvents fname gname) ++ [Event.ok]) (i - 1) ∧
      invoked fname gname (log ++ [Event.verifying fname gname] ++
        (verifyValues t).flatMap (callEvents fname gname) ++ [Event.ok]) i := by
    intro i hi
    have hr := (iValues_range t i hi).2.1
    constructor
    · apply invoked_of_mem
      apply bodyValues_subset t i hi
      simp [bodyValues, hr]
    · apply invoked_of_mem
      apply bodyValues_subset t i hi
      simp [bodyValues]
  have hw0 : t.wrap 0 = 0 := by cases t <;> decide
  refine ⟨?_, ?_, ?_, ?_, ?_⟩
  · apply invoked_of_mem
    simp [verifyValues, hw0]
  · apply invoked_of_mem
    simp [verifyValues]
  · apply invoked_of_mem
    simp [verifyValues]
  · intro k hk
    exact hbody _ (List.mem_append_left _ (pow_two_mem t k hk))
  · intro k hk
    exact hbody _ (List.mem_append_right _ (pow_ten_mem t k hk))

/-- Witness of C3: `verify<int32_t>` on twice the same function passes, and has then
invoked it on `2^30 - 1 = 1073741823` and on `10^9`. -/
theorem verify_tests_boundary_values_witness :
    verify .int32_t constZero constZero "f" "g" [] =
        Except.ok ([] ++ [Event.verifying "f" "g"] ++
          (verifyValues .int32_t).flatMap (callEvents "f" "g") ++ [Event.ok]) ∧
      invoked "f" "g" ([] ++ [Event.verifying "f" "g"] ++
          (verifyValues .int32_t).flatMap (callEvents "f" "g") ++ [Event.ok]) 1073741823 ∧
      invoked "f" "g" ([] ++ [Event.verifying "f" "g"] ++
          (verifyValues .int32_t).flatMap (callEvents "f" "g") ++ [Event.ok]) 1000000000 :=
  ⟨verify_of_no_mismatch _ _ _ _ _ _ (fun _ _ hm => hm rfl),
   ((verify_tests_boundary_values .int32_t constZero constZero "f" "g" [] _
      (verify_of_no_mismatch _ _ _ _ _ _ (fun _ _ hm => hm rfl))).2.2.2.1 30 (by decide)).1,
   ((verify_tests_boundary_values .int32_t constZero constZero "f" "g" [] _
      (verify_of_no_mismatch _ _ _ _ _ _ (fun _ _ hm => hm rfl))).2.2.2.2 9 (by decide)).2⟩

/-- C4, as stated, fails: a passing `verify<int32_t>` tests `7` (as `i - 1` for `i = 8`
of the multiplier-2 pass) and calls neither function on `-7`. -/
theorem verify_negation_not_closed :
    (8 : Int) ∈ iValues .int32_t 2 1 ∧ IntType.int32_t.wrap (8 - 1) = 7 ∧
      ∃ out, verify .int32_t constZero constZero "f" "g" [] = Except.ok out ∧
        invoked "f" "g" out 7 ∧ Event.call "f" (-7) ∉ out ∧ Event.call "g" (-7) ∉ out := by
  have h8 : (8 : Int) ∈ iValues .int32_t 2 1 := by
    rw [iValues_two]
    decide
  have hnot : (-7 : Int) ∉ verifyValues .int32_t := by
    rw [verifyValues_int32]
    decide
  refine ⟨h8, by decide, _, verify_of_no_mismatch _ _ _ _ _ _ (fun _ _ hm => hm rfl), ?_,
    fun hc => hnot (call_mem_passLog _ _ _ _ _ hc),
    fun hc => hnot (call_mem_passLog _ _ _ _ _ hc)⟩
  apply invoked_of_mem
  apply bodyValues_subset .int32_t 8 (List.mem_append_left _ h8)
  decide

/-- C4, amended: for the signed types, when `verify` ends without a mismatch, for every
value `i` on which its loop body has run (in the multiplier-2 and in the multiplier-10
pass) both functions have been invoked on `i`, on `-i` and on `-(i + 1)`. -/
theorem verify_tests_negated (t : IntType) (hs : t.isSigned = true) (f g : Conv)
    (fname gname : String) (log out : Log)
    (h : verify t f g fname gname log = Except.ok out) (i : Int)
    (hi : i ∈ iValues t 2 1 ++ iValues t 10 1) :
    invoked fname gname out i ∧ invoked fname gname out (-i) ∧
      invoked fname gname out (-(i + 1)) := by
  obtain ⟨_, rfl⟩ := (verify_ok_iff t f g fname gname log out).mp h
  have hr := iValues_range t i hi
  have hmin : numeric_limits.min t < 0 := by
    revert hs
    cases t <;> decide
  refine ⟨?_, ?_, ?_⟩
  · apply invoked_of_mem
    apply bodyValues_subset t i hi
    simp [bodyValues]
  · apply invoked_of_mem
    apply bodyValues_subset t i hi
    simp [bodyValues, hmin, (hr.2.2.2 hs).1]
  · apply invoked_of_mem
    apply bodyValues_subset t i hi
    simp only [bodyValues, hmin, if_true, hr.2.2.1, (hr.2.2.2 hs).2]
    simp

/-- Witness of C4 amended: `verify<int32_t>` on twice the same function, `i = 8` of the
multiplier-2 pass. -/
theorem verify_tests_negated_witness :
    IntType.int32_t.isSigned = true ∧
      verify .int32_t constZero constZero "f" "g" [] =
        Except.ok ([] ++ [Event.verifying "f" "g"] ++
          (verifyValues .int32_t).flatMap (callEvents "f" "g") ++ [Event.ok]) ∧
      (8 : Int) ∈ iValues .int32_t 2 1 ++ iValues .int32_t 10 1 ∧
      invoked "f" "g" ([] ++ [Event.verifying "f" "g"] ++
          (verifyValues .int32_t).flatMap (callEvents "f" "g") ++ [Event.ok]) (-8) ∧
      invoked "f" "g" ([] ++ [Event.verifying "f" "g"] ++
          (verifyValues .int32_t).flatMap (callEvents "f" "g") ++ [Event.ok]) (-(8 + 1)) :=
  ⟨rfl, verify_of_no_mismatch _ _ _ _ _ _ (fun _ _ hm => hm rfl),
   List.mem_append_left _ (by rw [iValues_two]; decide),
   (verify_tests_negated .int32_t rfl constZero constZero "f" "g" [] _
      (verify_of_no_mismatch _ _ _ _ _ _ (fun _ _ hm => hm rfl)) 8
      (List.mem_append_left _ (by rw [iValues_two]; decide))).2⟩

/-! ## A mismatch stops `verify` -/

/-- C5: `verify(f, g)` throws if and only if `f` and `g` write different strings for
some value of the boundary-value sequence; when it throws, it has called `f` and `g`
on the values of the sequence up to and including the first mismatching one, in
order, and on nothing else, and it has reported the two strings of that value. -/
theorem verify_fails_iff_mismatch (t : IntType) (f g : Conv) (fname gname : String)
    (log : Log) :
    ((∃ out, verify t f g fname gname log = Except.error out) ↔
        ∃ v ∈ verifyValues t, mismatch f g v) ∧
      ∀ out, verify t f g fname gname log = Except.error out →
        ∃ pre w post, verifyValues t = pre ++ w :: post ∧
          (∀ v ∈ pre, ¬ mismatch f g v) ∧ mismatch f g w ∧
          out = log ++ [Event.verifying fname gname] ++
            (pre ++ [w]).flatMap (callEvents fname gname) ++
            [Event.error fname (cstr (f w)) gname (cstr (g w))] := by
  constructor
  · constructor
    · rintro ⟨out, h⟩
      obtain ⟨w, hw, _⟩ := (verify_error_iff t f g fname gname log out).mp h
      exact ⟨w, (firstMismatch_some f g _ w hw).1, (firstMismatch_some f g _ w hw).2⟩
    · rintro ⟨v, hv, hm⟩
      cases hfm : firstMismatch f g (verifyValues t) with
      | none => exact absurd hm ((firstMismatch_eq_none f g _).mp hfm v hv)
      | some w => exact ⟨_, verify_of_mismatch t f g fname gname log w hfm⟩
  · intro out h
    obtain ⟨w, hw, hout⟩ := (verify_error_iff t f g fname gname log out).mp h
    obtain ⟨pre, post, h1, h2, h3⟩ := uptoMismatch_split f g _ w hw
    exact ⟨pre, w, post, h1, h2, (firstMismatch_some f g _ w hw).2, by rw [hout, h3]⟩

/-- Witness of C5: `verify<uint32_t>` on a function that writes `"0"` and one that
writes `"1"` throws at the first value, `0`, after one call of each. -/
theorem verify_fails_iff_mismatch_witness :
    verify .uint32_t constZero constOne "f" "g" [] =
        Except.error [Event.verifying "f" "g", Event.call "f" 0, Event.call "g" 0,
          Event.error "f" [48] "g" [49]] ∧
      ∃ pre w post, verifyValues .uint32_t = pre ++ w :: post ∧
        (∀ v ∈ pre, ¬ mismatch constZero constOne v) ∧ mismatch constZero constOne w ∧
        [Event.verifying "f" "g", Event.call "f" 0, Event.call "g" 0,
            Event.error "f" [48] "g" [49]] =
          [] ++ [Event.verifying "f" "g"] ++ (pre ++ [w]).flatMap (callEvents "f" "g") ++
            [Event.error "f" (cstr (constZero w)) "g" (cstr (constOne w))] :=
  ⟨by rfl, (verify_fails_iff_mismatch .uint32_t constZero constOne "f" "g" []).2 _ (by rfl)⟩

/-! ## `Verify` keeps the pairs apart -/

/-- C6: `Verify` always returns, and its output is, pair after pair in the order of
the listing, exactly what the verification of that pair leaves when it is run alone
from an empty log, whether it passed or threw; so a mismatch in one pair is caught
and changes nothing in what the other pairs do. -/
theorem Verify_isolates_pairs (impl : Impl) (msc : Bool) (log : Log) :
    Verify impl msc log =
      log ++
        (verifyList msc).flatMap (fun p =>
          outcomeLog (verify p.1 (impl p.1 p.2.1) (impl p.1 p.2.2)
            (FUNC_NAME p.1 p.2.1) (FUNC_NAME p.1 p.2.2) [])) ++
        [Event.puts] := by
  rw [Verify_eq]
  simp only [VERIFY_eq_outcomeLog]

/-! ## The values `bench` converts -/

/-- C7, the code at the failing input: in `bench<uint32_t>` the bucket of `digit = 1`
runs from `start = 1` to `end = 10` inclusive, and its iteration `9` passes the value
`10`, which has two decimal digits. -/
theorem bench_first_bucket_passes_ten (elapsed : Nat → ℚ) :
    ∃ bucket, (bench .uint32_t elapsed).calls.head? = some bucket ∧
      bucket[9]? = some 10 ∧ (decimalDigits (10 : Int).natAbs).length = 2 := by
  refine ⟨benchIter .uint32_t 1 10 kIterationPerDigit 1 [], ?_, ?_, ?_⟩
  · have hr : List.range' 1 (Traits.kMaxDigit .uint32_t) = 1 :: List.range' 2 9 := by decide
    unfold bench
    rw [hr, List.foldl_cons]
    apply foldl_benchDigit_head
    rfl
  · rw [benchIter_eq, List.nil_append, List.getElem?_map,
      List.getElem?_range (by decide : 9 < kIterationPerDigit)]
    decide
  · rw [show (10 : Int).natAbs = 10 from rfl, decimalDigits]
    rw [if_neg (by decide), decimalDigits, if_pos (by decide)]
    rfl

/-! ## The durations `bench` reports -/

/-- C8: when every bucket duration is non-negative, the minimum `bench` reports is one
of the bucket durations and is at most each of them, the maximum it reports is one of
them and is at least each of them; so the minimum is at most the maximum and both are
non-negative. -/
theorem bench_reports_min_and_max (t : IntType) (elapsed : Nat → ℚ)
    (h : ∀ d, 1 ≤ d → d ≤ Traits.kMaxDigit t → 0 ≤ elapsed d) :
    (∃ d, 1 ≤ d ∧ d ≤ Traits.kMaxDigit t ∧ (bench t elapsed).minDuration = elapsed d) ∧
    (∀ d, 1 ≤ d → d ≤ Traits.kMaxDigit t → (bench t elapsed).minDuration ≤ elapsed d) ∧
    (∃ d, 1 ≤ d ∧ d ≤ Traits.kMaxDigit t ∧ (bench t elapsed).maxDuration = elapsed d) ∧
    (∀ d, 1 ≤ d → d ≤ Traits.kMaxDigit t → elapsed d ≤ (bench t elapsed).maxDuration) ∧
    (bench t elapsed).minDuration ≤ (bench t elapsed).maxDuration ∧
    0 ≤ (bench t elapsed).minDuration ∧ 0 ≤ (bench t elapsed).maxDuration := by
  have hk : 1 ≤ Traits.kMaxDigit t := by cases t <;> decide
  obtain ⟨⟨⟨dm, hdm1, hdm2, hdm⟩, hmin⟩, hmaxEq, hmax0, hmax⟩ :=
    bench_durations_upto t elapsed (Traits.kMaxDigit t) hk
  have hmaxEx : ∃ d, 1 ≤ d ∧ d ≤ Traits.kMaxDigit t ∧
      (bench t elapsed).maxDuration = elapsed d := by
    rcases hmaxEq with h0 | hex
    · refine ⟨1, le_refl _, hk, ?_⟩
      have h1 := hmax 1 (le_refl _) hk
      have h2 := h 1 (le_refl _) hk
      unfold bench
      rw [h0] at h1 ⊢
      exact le_antisymm h2 h1
    · exact hex
  refine ⟨⟨dm, hdm1, hdm2, hdm⟩, hmin, hmaxEx, hmax, ?_, ?_, hmax0⟩
  · exact le_trans (hmin 1 (le_refl _) hk) (hmax 1 (le_refl _) hk)
  · unfold bench
    rw [hdm]
    exact h dm hdm1 hdm2

/-- Witness of C8: `bench<uint32_t>` with the duration `d` milliseconds for bucket `d`. -/
theorem bench_reports_min_and_max_witness :
    (∀ d : Nat, 1 ≤ d → d ≤ Traits.kMaxDigit .uint32_t → (0 : ℚ) ≤ (d : ℚ)) ∧
      (bench .uint32_t (fun d => (d : ℚ))).minDuration ≤
        (bench .uint32_t (fun d => (d : ℚ))).maxDuration :=
  ⟨fun d _ _ => Nat.cast_nonneg d,
   (bench_reports_min_and_max .uint32_t (fun d => (d : ℚ))
      (fun d _ _ => Nat.cast_nonneg d)).2.2.2.2.1⟩

/-! ## The pairs `Verify` compares -/

/-- C9, as stated, fails: no verification run by `Verify` pairs `u32toa_lut` with
`u32toa_sprintf`, in either order. -/
theorem Verify_lut_not_paired_with_sprintf :
    ¬ (∀ (impl : Impl) (msc : Bool) (t : IntType),
        ∀ a ∈ [Algo.naive, Algo.lut, Algo.count, Algo.countlut],
          (FUNC_NAME t a, FUNC_NAME t .sprintf) ∈ pairsVerified (Verify impl msc []) ∨
          (FUNC_NAME t .sprintf, FUNC_NAME t a) ∈ pairsVerified (Verify impl msc [])) := by
  intro h
  have hl := h (fun _ _ => constZero) false .uint32_t .lut (by decide)
  rw [pairsVerified_Verify] at hl
  revert hl
  decide

/-- C9, amended: for each of the four types, `Verify` pairs `naive` with `sprintf`, and
`lut`, `count` and `countlut` each with `naive`; `naive` is the only algorithm it
pairs directly with `sprintf`. -/
theorem Verify_pairs_with_naive (impl : Impl) (msc : Bool) (t : IntType) :
    (FUNC_NAME t .naive, FUNC_NAME t .sprintf) ∈ pairsVerified (Verify impl msc []) ∧
    (FUNC_NAME t .naive, FUNC_NAME t .lut) ∈ pairsVerified (Verify impl msc []) ∧
    (FUNC_NAME t .naive, FUNC_NAME t .count) ∈ pairsVerified (Verify impl msc []) ∧
    (FUNC_NAME t .naive, FUNC_NAME t .countlut) ∈ pairsVerified (Verify impl msc []) ∧
    (∀ a : Algo, (FUNC_NAME t a, FUNC_NAME t .sprintf) ∈ pairsVerified (Verify impl msc []) ↔
      a = .naive) ∧
    (∀ a : Algo, (FUNC_NAME t .sprintf, FUNC_NAME t a) ∉ pairsVerified (Verify impl msc [])) := by
  rw [pairsVerified_Verify]
  cases msc <;> cases t <;> refine ⟨by decide, by decide, by decide, by decide, ?_, ?_⟩ <;>
    intro a <;> cases a <;> decide

/-! ## The multiplier-10 pass -/

/-- C10, the code at the failing input: for `uint32_t` the multiplier-10 pass runs its
body on `1410065408 = 10^10 mod 2^32` after `10^9`; this is no power of ten, and a
passing `verify<uint32_t>` has called both functions on it and on `1410065407`. -/
theorem verify_ten_pass_runs_after_overflow :
    iValues .uint32_t 10 1 =
        [1, 10, 100, 1000, 10000, 100000, 1000000, 10000000, 100000000, 1000000000,
          1410065408] ∧
      IntType.uint32_t.wrap (1000000000 * 10) = 1410065408 ∧
      (∀ k : Nat, (10 : Int) ^ k ≠ 1410065408) ∧
      ∃ out, verify .uint32_t constZero constZero "f" "g" [] = Except.ok out ∧
        invoked "f" "g" out 1410065408 ∧ invoked "f" "g" out 1410065407 := by
  have hmem : (1410065408 : Int) ∈ iValues .uint32_t 2 1 ++ iValues .uint32_t 10 1 := by
    rw [iValues_ten_uint32]
    exact List.mem_append_right _ (by decide)
  refine ⟨by rw [iValues_ten_uint32]; rfl, by decide, not_pow_ten_1410065408,
    _, verify_of_no_mismatch _ _ _ _ _ _ (fun _ _ hm => hm rfl), ?_, ?_⟩
  · apply invoked_of_mem
    apply bodyValues_subset .uint32_t 1410065408 hmem
    simp [bodyValues]
  · apply invoked_of_mem
    apply bodyValues_subset .uint32_t 1410065408 hmem
    decide

/-! ## Facts on the buckets of `bench` -/

theorem bench_eq_benchUpTo (t : IntType) (elapsed : Nat → ℚ) :
    bench t elapsed = benchUpTo t elapsed (Traits.kMaxDigit t) := rfl

theorem benchUpTo_succ (t : IntType) (elapsed : Nat → ℚ) (n : Nat) :
    benchUpTo t elapsed (n + 1) = benchDigit t elapsed (benchUpTo t elapsed n) (n + 1) := by
  unfold benchUpTo
  rw [List.range'_1_concat, List.foldl_append, List.foldl_cons, List.foldl_nil, Nat.add_comm 1 n]

theorem benchUpTo_eq (t : IntType) (elapsed : Nat → ℚ) (n : Nat) :
    (benchUpTo t elapsed n).start = startAfter t n ∧
      (benchUpTo t elapsed n).calls =
        (List.range n).map (fun k =>
          benchIter t (startAfter t k) (startAfter t (k + 1)) kIterationPerDigit
            (startAfter t k) []) := by
  induction n with
  | zero => exact ⟨rfl, rfl⟩
  | succ n ih =>
    obtain ⟨hs, hc⟩ := ih
    rw [benchUpTo_succ]
    constructor
    · simp only [benchDigit, startAfter, hs]
    · simp only [benchDigit, hc, hs, List.range_succ, List.map_append, List.map_cons,
        List.map_nil, startAfter]

theorem bench_bucket (t : IntType) (elapsed : Nat → ℚ) (k : Nat)
    (hk : k < Traits.kMaxDigit t) :
    (bench t elapsed).calls[k]? =
      some (benchIter t (startAfter t k) (startAfter t (k + 1)) kIterationPerDigit
        (startAfter t k) []) := by
  rw [bench_eq_benchUpTo, (benchUpTo_eq t elapsed _).2, List.getElem?_map,
    List.getElem?_range hk]
  rfl

theorem benchIter_getElem? (t : IntType) (start end_ : Int) (n : Nat)
    (hn : n < kIterationPerDigit) :
    (benchIter t start end_ kIterationPerDigit start [])[n]? =
      some ((benchStep t start end_)^[n] start) := by
  rw [benchIter_eq, List.nil_append, List.getElem?_map, List.getElem?_range hn]
  rfl

/-- For `uint32_t`, `int32_t` and `uint64_t` the bounds of the buckets are the powers of
ten and the maximum, every product `start * 10` is at most the maximum of the type, and
`kMaxDigit` is the number of digits of the maximum. -/
theorem bench_bounds_other_types (t : IntType) (ht : t ≠ .int64_t) :
    (∀ d, 1 ≤ d → d ≤ Traits.kMaxDigit t →
      startAfter t (d - 1) = 10 ^ (d - 1) ∧ 1 ≤ startAfter t (d - 1) ∧
        startAfter t (d - 1) ≤ numeric_limits.max t ∧
        (d < Traits.kMaxDigit t →
          startAfter t d = 10 ^ d ∧ startAfter t (d - 1) * 10 ≤ numeric_limits.max t) ∧
        (d = Traits.kMaxDigit t → startAfter t d = numeric_limits.max t)) ∧
      (decimalDigits (numeric_limits.max t).natAbs).length = Traits.kMaxDigit t := by
  cases t
  · refine ⟨?_, decimalDigits_length_eq 9 _ (Or.inr (by decide)) (by decide)⟩
    intro d h1 h2
    simp only [Traits.kMaxDigit] at h2
    interval_cases d <;> decide
  · refine ⟨?_, decimalDigits_length_eq 9 _ (Or.inr (by decide)) (by decide)⟩
    intro d h1 h2
    simp only [Traits.kMaxDigit] at h2
    interval_cases d <;> decide
  · refine ⟨?_, decimalDigits_length_eq 19 _ (Or.inr (by decide)) (by decide)⟩
    intro d h1 h2
    simp only [Traits.kMaxDigit] at h2
    interval_cases d <;> decide
  · exact absurd rfl ht

/-! ## The bounds of the buckets of `bench` -/

/-- C11, the code at the failing input: `Traits<int64_t>::kMaxDigit` is `20` although the
maximum of `int64_t` has `19` digits; so in `bench<int64_t>` the pass `digit = 19`
computes its end as `10^18 * 10`, which is greater than the maximum and wraps to
`-8446744073709551616`, and the bucket of `digit = 20` starts at that negative value. -/
theorem bench_int64_bucket_bound_overflows (elapsed : Nat → ℚ) :
    Traits.kMaxDigit .int64_t = 20 ∧
      (decimalDigits (numeric_limits.max .int64_t).natAbs).length = 19 ∧
      startAfter .int64_t 18 = 10 ^ 18 ∧
      numeric_limits.max .int64_t < 10 ^ 18 * 10 ∧
      startAfter .int64_t 19 = -8446744073709551616 ∧
      ∃ bucket, (bench .int64_t elapsed).calls[19]? = some bucket ∧
        bucket[0]? = some (-8446744073709551616) := by
  refine ⟨rfl, decimalDigits_length_eq 18 _ (Or.inr (by decide)) (by decide), by decide,
    by decide, by decide, _, bench_bucket .int64_t elapsed 19 (by decide), ?_⟩
  rw [benchIter_getElem? _ _ _ 0 (by decide)]
  decide

/-! ## Facts on the inner loop of `bench` -/

theorem wrap_of_range (t : IntType) (x : Int) (hmin : numeric_limits.min t ≤ x)
    (hmax : x ≤ numeric_limits.max t) : t.wrap x = x := by
  cases t <;>
    simp only [numeric_limits.min, numeric_limits.max, IntType.wrap, IntType.isSigned,
      IntType.width, if_true, if_false, Bool.false_eq_true] at hmin hmax ⊢ <;>
    norm_num at hmin hmax ⊢ <;>
    omega

theorem wrap_range (t : IntType) (x : Int) :
    numeric_limits.min t ≤ t.wrap x ∧ t.wrap x ≤ numeric_limits.max t := by
  cases t <;>
    simp only [numeric_limits.min, numeric_limits.max, IntType.wrap, IntType.isSigned,
      IntType.width, if_true, if_false, Bool.false_eq_true] <;>
    norm_num <;>
    omega

theorem startAfter_range (t : IntType) (n : Nat) :
    numeric_limits.min t ≤ startAfter t n ∧ startAfter t n ≤ numeric_limits.max t := by
  cases n with
  | zero => cases t <;> decide
  | succ n =>
    unfold startAfter
    split
    · exact ⟨limits_min_le_max t, le_refl _⟩
    · exact wrap_range t _

theorem benchStep_next (t : IntType) (start end_ : Int) (hmin : numeric_limits.min t ≤ start)
    (hle : start ≤ end_) (hmax : end_ ≤ numeric_limits.max t) (m : Nat) :
    benchStep t start end_ (start + (m : Int) % (end_ - start + 1)) =
        start + ((m + 1 : Nat) : Int) % (end_ - start + 1) ∧
      benchStep t start end_ (start + (m : Int) % (end_ - start + 1)) =
        (if start + (m : Int) % (end_ - start + 1) = end_ then start
          else start + (m : Int) % (end_ - start + 1) + 1) ∧
      start ≤ start + (m : Int) % (end_ - start + 1) ∧
      start + (m : Int) % (end_ - start + 1) ≤ end_ := by
  have hL : 0 < end_ - start + 1 := by omega
  have h0 : 0 ≤ (m : Int) % (end_ - start + 1) := Int.emod_nonneg _ (ne_of_gt hL)
  have h1 : (m : Int) % (end_ - start + 1) < end_ - start + 1 := Int.emod_lt_of_pos _ hL
  have hs : ((m + 1 : Nat) : Int) % (end_ - start + 1) =
      ((m : Int) % (end_ - start + 1) + 1) % (end_ - start + 1) := by
    rw [Int.emod_add_emod]
    push_cast
    rfl
  generalize (m : Int) % (end_ - start + 1) = r at h0 h1 hs ⊢
  rw [hs]
  unfold benchStep
  by_cases he : start + r = end_
  · have hr : r + 1 = end_ - start + 1 := by omega
    simp only [he, if_true]
    rw [hr, Int.emod_self]
    exact ⟨by omega, trivial, by omega, le_refl _⟩
  · have hr : (r + 1) % (end_ - start + 1) = r + 1 :=
      Int.emod_eq_of_lt (by omega) (by omega)
    have hw : t.wrap (start + r + 1) = start + r + 1 :=
      wrap_of_range t _ (by omega) (by omega)
    simp only [he, if_false, hr, hw]
    exact ⟨by omega, trivial, by omega, by omega⟩

theorem benchStep_iterate (t : IntType) (start end_ : Int)
    (hmin : numeric_limits.min t ≤ start) (hle : start ≤ end_)
    (hmax : end_ ≤ numeric_limits.max t) (n : Nat) :
    (benchStep t start end_)^[n] start = start + (n : Int) % (end_ - start + 1) := by
  induction n with
  | zero => simp
  | succ n ih =>
    rw [Function.iterate_succ_apply', ih]
    exact (benchStep_next t start end_ hmin hle hmax n).1

/-! ## The values of one bucket of `bench` -/

/-- C12: in the bucket of `digit` of `bench`, with `start` and `end` the bounds the code
computes for it, when `start <= end` the value passed to the function at iteration `n`
is `start + n mod (end - start + 1)`; it lies between `start` and `end`, and the value of
the next iteration is `start` when this one is `end` and one more otherwise. -/
theorem bench_bucket_cycles (t : IntType) (elapsed : Nat → ℚ) (digit : Nat)
    (h1 : 1 ≤ digit) (h2 : digit ≤ Traits.kMaxDigit t)
    (hle : startAfter t (digit - 1) ≤ startAfter t digit)
    (n : Nat) (hn : n < kIterationPerDigit) :
    ∃ bucket, (bench t elapsed).calls[digit - 1]? = some bucket ∧
      bucket = benchIter t (startAfter t (digit - 1)) (startAfter t digit) kIterationPerDigit
        (startAfter t (digit - 1)) [] ∧
      bucket[n]? = some (startAfter t (digit - 1) +
        (n : Int) % (startAfter t digit - startAfter t (digit - 1) + 1)) ∧
      startAfter t (digit - 1) ≤ startAfter t (digit - 1) +
        (n : Int) % (startAfter t digit - startAfter t (digit - 1) + 1) ∧
      startAfter t (digit - 1) +
        (n : Int) % (startAfter t digit - startAfter t (digit - 1) + 1) ≤ startAfter t digit ∧
      (n + 1 < kIterationPerDigit →
        bucket[n + 1]? = some
          (if startAfter t (digit - 1) +
              (n : Int) % (startAfter t digit - startAfter t (digit - 1) + 1) =
              startAfter t digit
            then startAfter t (digit - 1)
            else startAfter t (digit - 1) +
              (n : Int) % (startAfter t digit - startAfter t (digit - 1) + 1) + 1)) := by
  have hb := bench_bucket t elapsed (digit - 1) (by omega)
  have hd : digit - 1 + 1 = digit := by omega
  rw [hd] at hb
  have hmin := (startAfter_range t (digit - 1)).1
  have hmax := (startAfter_range t digit).2
  have hstep := benchStep_next t _ _ hmin hle hmax n
  refine ⟨_, hb, rfl, ?_, hstep.2.2.1, hstep.2.2.2, ?_⟩
  · rw [benchIter_getElem? _ _ _ n hn, benchStep_iterate t _ _ hmin hle hmax]
  · intro hn1
    rw [benchIter_getElem? _ _ _ (n + 1) hn1, benchStep_iterate t _ _ hmin hle hmax,
      ← hstep.1, hstep.2.1]

/-- Witness of C12: `bench<uint32_t>`, the bucket of `digit = 1` (from `1` to `10`),
iteration `12`, which passes `1 + 12 mod 10 = 3`. -/
theorem bench_bucket_cycles_witness :
    1 ≤ 1 ∧ 1 ≤ Traits.kMaxDigit .uint32_t ∧
      startAfter .uint32_t (1 - 1) ≤ startAfter .uint32_t 1 ∧ 12 < kIterationPerDigit ∧
      ∃ bucket, (bench .uint32_t (fun d => (d : ℚ))).calls[1 - 1]? = some bucket ∧
        bucket[12]? = some 3 := by
  obtain ⟨bucket, hb, _, hv, _⟩ :=
    bench_bucket_cycles .uint32_t (fun d => (d : ℚ)) 1 (by decide) (by decide) (by decide)
      12 (by decide)
  exact ⟨by decide, by decide, by decide, by decide, bucket, hb, hv⟩

/-! ## Facts on the repetitions of the loop of `verify` -/

theorem doWhile_stops (t : IntType) (power : Nat) (i : Int) :
    ∃ n, stopsAfter t power i n ∧
      iValues t power i = (List.range (n + 1)).map (fun m => (mulStep t power)^[m] i) := by
  induction i using iValues.induct t power with
  | case1 i hlt ih =>
    obtain ⟨n, ⟨hup, hstop⟩, hval⟩ := ih
    refine ⟨n + 1, ⟨?_, ?_⟩, ?_⟩
    · intro m hm
      cases m with
      | zero => exact hlt
      | succ k =>
        rw [Function.iterate_succ_apply, Function.iterate_succ_apply]
        exact hup k (by omega)
    · rw [Function.iterate_succ_apply, Function.iterate_succ_apply]
      exact hstop
    · rw [iValues, if_pos hlt, hval, List.range_succ_eq_map (n + 1), List.map_cons,
        List.map_map]
      rfl
  | case2 i hlt =>
    refine ⟨0, ⟨?_, ?_⟩, ?_⟩
    · intro m hm
      omega
    · exact hlt
    · rw [iValues, if_neg hlt]
      rfl

theorem iValues_two_length (t : IntType) : (iValues t 2 1).length = twoCount t := by
  rw [iValues_two]
  simp

theorem iValues_ten_length (t : IntType) : (iValues t 10 1).length = tenCount t := by
  cases t
  · rw [iValues_ten_uint32]; rfl
  · rw [iValues_ten_int32]; rfl
  · rw [iValues_ten_uint64]; rfl
  · rw [iValues_ten_int64]; rfl

/-! ## The loop of `verify` terminates -/

/-- C13: for each of the four types and for both multipliers, `2` and `10`, the loop
`do { ...; last = i; i *= power; } while (last < i)` of `verify`, entered with `i = 1`
and with wrapping multiplication, stops: there is an `n` such that the first `n`
products are greater than the value before and the next one is not; the loop then
returns after `n + 1` passes through its body, on `1` and the first `n` products
(`32`, `31`, `64`, `63` passes for the multiplier `2`, and `11`, `11`, `20`, `19` for the
multiplier `10`). -/
theorem verify_loop_terminates (t : IntType) (f g : Conv) (fname gname : String) (log : Log) :
    (∃ n, n + 1 = twoCount t ∧ stopsAfter t 2 1 n ∧
      doWhile t f g fname gname 2 1 log =
        runTests f g fname gname
          (((List.range (n + 1)).map (fun m => (mulStep t 2)^[m] 1)).flatMap (bodyValues t))
          log) ∧
    (∃ n, n + 1 = tenCount t ∧ stopsAfter t 10 1 n ∧
      doWhile t f g fname gname 10 1 log =
        runTests f g fname gname
          (((List.range (n + 1)).map (fun m => (mulStep t 10)^[m] 1)).flatMap (bodyValues t))
          log) := by
  constructor
  · obtain ⟨n, hs, hv⟩ := doWhile_stops t 2 1
    have hl := iValues_two_length t
    rw [hv] at hl
    exact ⟨n, by simpa using hl, hs, by rw [doWhile_eq, hv]⟩
  · obtain ⟨n, hs, hv⟩ := doWhile_stops t 10 1
    have hl := iValues_ten_length t
    rw [hv] at hl
    exact ⟨n, by simpa using hl, hs, by rw [doWhile_eq, hv]⟩

/-! ## Passing verifications chain through `naive` -/

/-- C14: a passing `verify` has called its two functions on the boundary-value sequence
of the type, whatever the functions; so when, for one type, the verifications of `naive`
against `sprintf`, `lut`, `count` and `countlut` all pass, the five functions write the
same string for every value of that sequence. -/
theorem verify_passes_chain (impl : Impl) (t : IntType) (log1 log2 log3 log4 : Log)
    (out1 out2 out3 out4 : Log)
    (h1 : verify t (impl t .naive) (impl t .sprintf) (FUNC_NAME t .naive)
      (FUNC_NAME t .sprintf) log1 = Except.ok out1)
    (h2 : verify t (impl t .naive) (impl t .lut) (FUNC_NAME t .naive)
      (FUNC_NAME t .lut) log2 = Except.ok out2)
    (h3 : verify t (impl t .naive) (impl t .count) (FUNC_NAME t .naive)
      (FUNC_NAME t .count) log3 = Except.ok out3)
    (h4 : verify t (impl t .naive) (impl t .countlut) (FUNC_NAME t .naive)
      (FUNC_NAME t .countlut) log4 = Except.ok out4) :
    (out1 = log1 ++ [Event.verifying (FUNC_NAME t .naive) (FUNC_NAME t .sprintf)] ++
        (verifyValues t).flatMap (callEvents (FUNC_NAME t .naive) (FUNC_NAME t .sprintf)) ++
        [Event.ok] ∧
      out2 = log2 ++ [Event.verifying (FUNC_NAME t .naive) (FUNC_NAME t .lut)] ++
        (verifyValues t).flatMap (callEvents (FUNC_NAME t .naive) (FUNC_NAME t .lut)) ++
        [Event.ok] ∧
      out3 = log3 ++ [Event.verifying (FUNC_NAME t .naive) (FUNC_NAME t .count)] ++
        (verifyValues t).flatMap (callEvents (FUNC_NAME t .naive) (FUNC_NAME t .count)) ++
        [Event.ok] ∧
      out4 = log4 ++ [Event.verifying (FUNC_NAME t .naive) (FUNC_NAME t .countlut)] ++
        (verifyValues t).flatMap (callEvents (FUNC_NAME t .naive) (FUNC_NAME t .countlut)) ++
        [Event.ok]) ∧
    ∀ v ∈ verifyValues t,
      cstr (impl t .sprintf v) = cstr (impl t .naive v) ∧
      cstr (impl t .lut v) = cstr (impl t .naive v) ∧
      cstr (impl t .count v) = cstr (impl t .naive v) ∧
      cstr (impl t .countlut v) = cstr (impl t .naive v) := by
  obtain ⟨m1, e1⟩ := (verify_ok_iff _ _ _ _ _ _ _).mp h1
  obtain ⟨m2, e2⟩ := (verify_ok_iff _ _ _ _ _ _ _).mp h2
  obtain ⟨m3, e3⟩ := (verify_ok_iff _ _ _ _ _ _ _).mp h3
  obtain ⟨m4, e4⟩ := (verify_ok_iff _ _ _ _ _ _ _).mp h4
  refine ⟨⟨e1, e2, e3, e4⟩, ?_⟩
  intro v hv
  have a1 := m1 v hv
  have a2 := m2 v hv
  have a3 := m3 v hv
  have a4 := m4 v hv
  simp only [mismatch, ne_eq, not_not] at a1 a2 a3 a4
  exact ⟨a1.symm, a2.symm, a3.symm, a4.symm⟩

/-- Witness of C14: `uint32_t`, with every function writing `"0"`; the four verifications
pass and the five strings agree at `1410065408`. -/
theorem verify_passes_chain_witness :
    verify .uint32_t constZero constZero (FUNC_NAME .uint32_t .naive)
        (FUNC_NAME .uint32_t .sprintf) [] =
      Except.ok ([] ++ [Event.verifying (FUNC_NAME .uint32_t .naive)
          (FUNC_NAME .uint32_t .sprintf)] ++
        (verifyValues .uint32_t).flatMap
          (callEvents (FUNC_NAME .uint32_t .naive) (FUNC_NAME .uint32_t .sprintf)) ++
        [Event.ok]) ∧
      (1410065408 : Int) ∈ verifyValues .uint32_t ∧
      cstr (constZero 1410065408) = cstr (constZero 1410065408) :=
  ⟨verify_of_no_mismatch _ _ _ _ _ _ (fun _ _ hm => hm rfl),
   bodyValues_subset .uint32_t 1410065408
     (List.mem_append_right _ (by rw [iValues_ten_uint32]; decide)) 1410065408 (by decide),
   ((verify_passes_chain (fun _ _ => constZero) .uint32_t [] [] [] [] _ _ _ _
      (verify_of_no_mismatch _ _ _ _ _ _ (fun _ _ hm => hm rfl))
      (verify_of_no_mismatch _ _ _ _ _ _ (fun _ _ hm => hm rfl))
      (verify_of_no_mismatch _ _ _ _ _ _ (fun _ _ hm => hm rfl))
      (verify_of_no_mismatch _ _ _ _ _ _ (fun _ _ hm => hm rfl))).2 1410065408
      (bodyValues_subset .uint32_t 1410065408
        (List.mem_append_right _ (by rw [iValues_ten_uint32]; decide)) 1410065408
        (by decide))).1⟩

/-! ## No overflow in the arguments of the loop of `verify` -/

theorem iValues_signed_arguments (t : IntType) (hs : t.isSigned = true) :
    ∀ i ∈ iValues t 2 1 ++ iValues t 10 1,
      1 ≤ i ∧
      (numeric_limits.min t ≤ i - 1 ∧ i - 1 ≤ numeric_limits.max t) ∧
      (numeric_limits.min t ≤ i + 1 ∧ i + 1 ≤ numeric_limits.max t) ∧
      (numeric_limits.min t ≤ -i ∧ -i ≤ numeric_limits.max t) ∧
      (numeric_limits.min t ≤ -(i + 1) ∧ -(i + 1) ≤ numeric_limits.max t) ∧
      i ≠ numeric_limits.min t ∧ i + 1 ≠ numeric_limits.min t ∧
      bodyValues t i = [i - 1, i, -i, -(i + 1)] := by
  cases t
  · exact absurd hs (by decide)
  · rw [iValues_two, iValues_ten_int32]; decide
  · exact absurd hs (by decide)
  · rw [iValues_two, iValues_ten_int64]; decide

/-- C15: for the signed types, on every pass through the loop body of `verify`
`i >= 1` holds, the values `i - 1`, `i + 1`, `-i` and `-(i + 1)` lie between the minimum
and the maximum of the type, `Negate` is applied to `i` and to `i + 1`, neither of which
is the minimum of the type, and the four arguments the code computes (with wrapping
arithmetic) are exactly `i - 1`, `i`, `-i` and `-(i + 1)`. -/
theorem verify_loop_arguments_representable (t : IntType) (hs : t.isSigned = true) (i : Int)
    (hi : i ∈ iValues t 2 1 ++ iValues t 10 1) :
    1 ≤ i ∧
    (numeric_limits.min t ≤ i - 1 ∧ i - 1 ≤ numeric_limits.max t) ∧
    (numeric_limits.min t ≤ i + 1 ∧ i + 1 ≤ numeric_limits.max t) ∧
    (numeric_limits.min t ≤ -i ∧ -i ≤ numeric_limits.max t) ∧
    (numeric_limits.min t ≤ -(i + 1) ∧ -(i + 1) ≤ numeric_limits.max t) ∧
    i ≠ numeric_limits.min t ∧ i + 1 ≠ numeric_limits.min t ∧
    bodyValues t i = [i - 1, i, -i, -(i + 1)] :=
  iValues_signed_arguments t hs i hi

/-- Witness of C15: `int32_t`, the last pass of the multiplier-10 loop,
`i = 1410065408`. -/
theorem verify_loop_arguments_representable_witness :
    IntType.int32_t.isSigned = true ∧
      (1410065408 : Int) ∈ iValues .int32_t 2 1 ++ iValues .int32_t 10 1 ∧
      bodyValues .int32_t 1410065408 = [1410065407, 1410065408, -1410065408, -1410065409] :=
  ⟨rfl, List.mem_append_right _ (by rw [iValues_ten_int32]; decide),
   (verify_loop_arguments_representable .int32_t rfl 1410065408
      (List.mem_append_right _ (by rw [iValues_ten_int32]; decide))).2.2.2.2.2.2.2⟩
